import Mathlib

/-!
Verification development for the mandatory-inlining pass
(`lib/SILOptimizer/Mandatory/MandatoryInlining.cpp`).

The development contains two shallow embeddings:

* `MandatoryInlining`: a pass-level model.  A function body is a list of
  instructions; an apply site carries a callee-value chain
  (function_ref / thin_to_thick_function / partial_apply / conversions /
  mark_dependence / a load from boxed storage).  The model embeds
  `getCalleeFunction` (the eligibility pipeline of lines 293-476),
  `fixupReferenceCounts` (lines 51-75), `runOnFunctionRecursively`
  (lines 509-666, written as a fuel-indexed step function over an explicit
  call description, with the block-reverse iteration of the source
  rendered as a forward scan that rescans spliced callee bodies; the set
  of visited instructions is the same) and the module driver
  `MandatoryInlining::run` (lines 676-734).

  External collaborators that live outside this file of the repository are
  modelled from the spec as oracles in an `Env` record: the function
  loader (`loadFunction`), the inline engine admissibility test
  (`canInlineApplySite`) and the devirtualizer (`tryDevirtualizeApply`).
  `mergeBasicBlocks` only canonicalizes the block structure, which the
  pass-level model abstracts away, so it is the identity on the
  instruction list.  Type-level tests of the source (the escaping-type
  comparisons of `skipFuncConvert`) are carried as precomputed booleans on
  the conversion nodes.  Substitution maps and opened-archetype
  registration are carried as inert data.

* `BoxModel`: an instruction-level model of the boxed-callee pattern
  match in `getCalleeFunction` (lines 306-346) and of
  `cleanupLoadedCalleeValue` (lines 77-134), with explicit instruction
  identities, operands and def-use queries.
-/

namespace MandatoryInlining

/-- Parameter ownership conventions relevant to the pass
(`ParameterConvention` in the source). -/
inductive ParamConvention
  | directOwned
  | directGuaranteed
  | directUnowned
  | indirectIn
  | indirectInGuaranteed
  deriving DecidableEq, Repr

/-- A captured argument of a partial application: the SSA value id, whether
the value is address-typed, and its convention (the pair pushed by
`collectPartiallyAppliedArguments`, lines 269-283, with the address-ness of
the value's type carried alongside). -/
structure Capture where
  valueTag : Nat
  isAddress : Bool
  conv : ParamConvention
  deriving DecidableEq, Repr

/-- Function representations (`SILFunctionTypeRepresentation`). -/
inductive Representation
  | thick
  | thin
  | method
  | closure
  | witnessMethod
  | cFunctionPointer
  | objcMethod
  | block
  deriving DecidableEq, Repr

/-- The callee-value chain of an apply site, as pattern-matched by
`getCalleeFunction`.  `convertThinNoEscape` is a `convert_function` whose
operand is context-free; `convertEscapeToNoEscape` is a
`convert_escape_to_noescape`.  For both, `structuralNoOp` is the source's
type-level test that the conversion only toggles the `@noescape` bit
(`FromCalleeTy == EscapingCalleeTy`, lines 363-374 and 400-407).
`loadBoxedOk` / `loadBoxedBad` are a load from boxed local storage,
carrying the outcome of the box-pattern validation of lines 306-346 (the
stored callee value on success), whose instruction-level algorithm is
embedded separately in `BoxModel.resolveLoadedCallee`. -/
inductive CalleeVal
  | funcRef (f : Nat)
  | thinToThick (v : CalleeVal)
  | partApp (calleeGuaranteed : Bool) (subsMap : Nat) (caps : List Capture) (v : CalleeVal)
  | convertThinNoEscape (structuralNoOp : Bool) (v : CalleeVal)
  | markDependence (v : CalleeVal)
  | convertEscapeToNoEscape (structuralNoOp : Bool) (v : CalleeVal)
  | loadBoxedOk (stored : CalleeVal)
  | loadBoxedBad (tag : Nat)
  | unknown (tag : Nat)
  deriving DecidableEq, Repr

/-- Data of one full apply site: diagnostic location, the SSA value id of
the callee operand (the value `CalleeValue` of line 569, released by
`fixupReferenceCounts`), the callee-value chain, the apply's own argument
value ids and its substitution map id. -/
structure ApplySiteData where
  loc : Nat
  calleeTag : Nat
  callee : CalleeVal
  args : List Nat
  subsMap : Nat
  deriving DecidableEq, Repr

/-- Pass-level instructions: apply sites, the ownership operations inserted
by `fixupReferenceCounts` (`createIncrementBefore` / `createDecrementBefore`)
and opaque other instructions. -/
inductive Inst
  | applySite (site : ApplySiteData)
  | increment (valueTag : Nat)
  | decrement (valueTag : Nat)
  | other (tag : Nat)
  deriving DecidableEq, Repr

/-- The read-only predicate flags of a function consulted by the pass. -/
structure FnAttrs where
  isTransparent : Bool
  representation : Representation
  isThunk : Bool
  wasDeserializedCanonical : Bool
  isSerialized : Bool
  hasValidLinkageForFragileInline : Bool
  hasValidLinkageForFragileRef : Bool
  isPossiblyUsedExternally : Bool
  refCount : Nat
  deriving DecidableEq, Repr

/-- A function: attributes plus a body.  An empty body is a declaration
without a loaded body (`SILFunction::empty`). -/
structure Fn where
  attrs : FnAttrs
  body : List Inst
  deriving DecidableEq, Repr

/-- A module: an ordered association list from function names to
functions. -/
abbrev Module := List (Nat × Fn)

def findFn (M : Module) (f : Nat) : Option Fn :=
  (M.find? (fun p => p.1 = f)).map (fun p => p.2)

def updateBody (M : Module) (f : Nat) (b : List Inst) : Module :=
  M.map (fun p => if p.1 = f then (p.1, { p.2 with body := b }) else p)

def attrsOf (M : Module) (f : Nat) : Option FnAttrs :=
  (findFn M f).map (fun fn => fn.attrs)

def bodyOf (M : Module) (f : Nat) : List Inst :=
  ((findFn M f).map (fun fn => fn.body)).getD []

def serializedOf (M : Module) (f : Nat) : Bool :=
  ((attrsOf M f).map (fun a => a.isSerialized)).getD false

/-- External collaborators of the pass, modelled from the spec
(section 6, EXTERNAL INTERFACES): the best-effort function-body loader,
the inline engine's admissibility test `canInlineApplySite`, and the
devirtualizer, which may rewrite an apply site into a new instruction. -/
structure Env where
  loadBody : Nat → Option (List Inst)
  canInline : ApplySiteData → Bool
  devirt : ApplySiteData → Option Inst

/-- One step of the wrapper-skip lambda `skipFuncConvert` (lines 354-408):
a structurally no-op thin escaping-to-noescape `convert_function`, a run of
`mark_dependence` wrappers, or a structurally no-op
`convert_escape_to_noescape`.  Anything else is returned unchanged. -/
def stripMarkDependence : CalleeVal → CalleeVal
  | CalleeVal.markDependence v => stripMarkDependence v
  | v => v

def skipFuncConvert : CalleeVal → CalleeVal
  | CalleeVal.convertThinNoEscape noOp v =>
      if noOp then v else CalleeVal.convertThinNoEscape noOp v
  | CalleeVal.markDependence v => stripMarkDependence v
  | CalleeVal.convertEscapeToNoEscape noOp v =>
      if noOp then v else CalleeVal.convertEscapeToNoEscape noOp v
  | v => v

/-- Shape of a successful resolution: callee name, thick flag, captured
arguments, the traversed partial application's
(`isCalleeGuaranteed`, substitution map) data if one was traversed, and the
effective full argument list. -/
structure Resolution where
  calleeFn : Nat
  isThick : Bool
  captures : List Capture
  pai : Option (Bool × Nat)
  fullArgs : List Nat
  deriving DecidableEq, Repr

/-- The module-independent part of `getCalleeFunction` (lines 297-433):
look through a load from validated boxed storage, skip transparent
wrappers, traverse at most one `partial_apply` (collecting its captured
arguments and appending them to the full argument list, as
`collectPartiallyAppliedArguments` does) or one `thin_to_thick_function`,
skip wrappers once more, and require a direct function reference. -/
def resolveShape (AI : ApplySiteData) : Option Resolution :=
  match (match AI.callee with
         | CalleeVal.loadBoxedOk v => some v
         | CalleeVal.loadBoxedBad _ => none
         | v => some v) with
  | none => none
  | some v0 =>
    let v1 := skipFuncConvert v0
    let st : CalleeVal × Bool × List Capture × Option (Bool × Nat) × List Nat :=
      match v1 with
      | CalleeVal.partApp g s cs inner =>
          (inner, true, cs, some (g, s), AI.args ++ cs.map (fun c => c.valueTag))
      | CalleeVal.thinToThick inner => (inner, true, [], none, AI.args)
      | v => (v, false, [], none, AI.args)
    match skipFuncConvert st.1 with
    | CalleeVal.funcRef f => some ⟨f, st.2.1, st.2.2.1, st.2.2.2.1, st.2.2.2.2⟩
    | _ => none

/-- Foreign calling conventions are never inlinable (lines 445-448). -/
def foreignRep : Representation → Bool
  | Representation.cFunctionPointer => true
  | Representation.objcMethod => true
  | Representation.block => true
  | _ => false

/-- Outcome of `getCalleeFunction`: a fatal internal-consistency failure
(`llvm_unreachable`, lines 467-470), a recoverable resolution failure
(`return nullptr`), or a resolved callee.  The non-fatal outcomes carry the
module, which the best-effort body load may have extended. -/
inductive ResolveOut
  | fatal
  | fail (M : Module)
  | ok (r : Resolution) (M : Module)
  deriving DecidableEq, Repr

def ResolveOut.isFail : ResolveOut → Bool
  | ResolveOut.fail _ => true
  | _ => false

/-- Load the body of an empty callee, best-effort (lines 456-462). -/
def loadIfEmpty (env : Env) (M : Module) (f : Nat) (fn : Fn) : List Inst × Module :=
  if fn.body = [] then
    match env.loadBody f with
    | some b => (b, updateBody M f b)
    | none => ([], M)
  else (fn.body, M)

/-- Eligibility pipeline of `getCalleeFunction` on the resolved function
(lines 435-475): reject foreign representations, reject non-transparent
callees, attempt to load an empty body and fail if still empty, and apply
the serialized-caller linkage rule: a callee without linkage valid for
fragile inlining makes resolution fail if it still has valid reference
linkage, and is a fatal internal-consistency violation otherwise. -/
def getCalleeFunction (env : Env) (M : Module) (callerSerialized : Bool)
    (AI : ApplySiteData) : ResolveOut :=
  match resolveShape AI with
  | none => ResolveOut.fail M
  | some r =>
    match findFn M r.calleeFn with
    | none => ResolveOut.fail M
    | some fn =>
      if foreignRep fn.attrs.representation then ResolveOut.fail M
      else if fn.attrs.isTransparent = false then ResolveOut.fail M
      else if (loadIfEmpty env M r.calleeFn fn).1 = [] then
        ResolveOut.fail (loadIfEmpty env M r.calleeFn fn).2
      else if callerSerialized ∧ fn.attrs.hasValidLinkageForFragileInline = false then
        if fn.attrs.hasValidLinkageForFragileRef = false then ResolveOut.fatal
        else ResolveOut.fail (loadIfEmpty env M r.calleeFn fn).2
      else ResolveOut.ok r (loadIfEmpty env M r.calleeFn fn).2

/-- A captured argument receives a compensating increment exactly when it
is not address-typed and its convention is neither direct-guaranteed nor
direct-unowned (lines 59-63). -/
def shouldRetainCapture (c : Capture) : Bool :=
  !c.isAddress && !(c.conv = ParamConvention.directGuaranteed)
    && !(c.conv = ParamConvention.directUnowned)

/-- Insertion immediately before the apply instruction: `pre` is the list
of instructions already sitting before the apply; `createIncrementBefore` /
`createDecrementBefore` append to it. -/
def insertBefore (pre : List Inst) (i : Inst) : List Inst := pre ++ [i]

/-- `fixupReferenceCounts` (lines 51-75): for each capture that
`shouldRetainCapture` admits, insert an increment immediately before the
apply; then, unless the callee is guaranteed for the duration of the call,
insert a decrement of the callee value, likewise immediately before the
apply (`createDecrementBefore(CalleeValue, &*I)`, line 74).  The result is
the new prefix of instructions sitting before the apply.  The source's
`assert` against indirect-in captures (the acknowledged unhandled
indirect-copy gap, lines 65-68) is a debug-build no-op and is not part of
the release semantics embedded here. -/
def fixupReferenceCounts (pre : List Inst) (calleeTag : Nat)
    (captures : List Capture) (isCalleeGuaranteed : Bool) : List Inst :=
  let pre2 := captures.foldl
    (fun acc c =>
      if shouldRetainCapture c then insertBefore acc (Inst.increment c.valueTag)
      else acc) pre
  if isCalleeGuaranteed then pre2 else insertBefore pre2 (Inst.decrement calleeTag)

/-- The whole basic-block effect of `fixupReferenceCounts` around the apply
instruction `i`: the block `pre ++ i :: post` becomes
`fixupReferenceCounts pre ... ++ i :: post` (all insertions are before the
apply; the apply and everything after it are untouched). -/
def fixupOnBlock (pre : List Inst) (i : Inst) (post : List Inst) (calleeTag : Nat)
    (captures : List Capture) (isCalleeGuaranteed : Bool) : List Inst :=
  fixupReferenceCounts pre calleeTag captures isCalleeGuaranteed ++ i :: post

def paiGuaranteed (r : Resolution) : Bool :=
  match r.pai with
  | some gs => gs.1
  | none => false

/-- Diagnostics of the pass: the circular-inlining error
(`diag::circular_transparent`, line 527) and the while-inlining note
(`diag::note_while_inlining`, line 591). -/
inductive Diag
  | circular (loc : Nat)
  | note (loc : Nat)
  deriving DecidableEq, Repr

def noteFor : Option Nat → List Diag
  | some l => [Diag.note l]
  | none => []

/-- A pending activation of `runOnFunctionRecursively`: `enter` is the
function entry (lines 516-536); `scan` is the scan-and-inline loop over the
remaining instructions `todo`, with `done` the already-scanned prefix of
the evolving body (the in-place mutation of the source is rendered by
writing `done`, or on an abort `done ++ todo`, back into the module). -/
inductive Call
  | enter (M : Module) (F : Nat) (AI : Option Nat) (fis cis : List Nat) (diags : List Diag)
  | scan (M : Module) (F : Nat) (AI : Option Nat) (fis cis : List Nat) (diags : List Diag)
         (done todo : List Inst)

/-- Result of an activation: `fatal` aborts the process
(`llvm_unreachable`); `ok success M fis diags` is the boolean result of
`runOnFunctionRecursively` together with the module, the
`FullyInlinedSet` and the diagnostics emitted so far. -/
inductive PassOut
  | fatal
  | ok (success : Bool) (M : Module) (fis : List Nat) (diags : List Diag)
  deriving DecidableEq, Repr

/-- The devirtualization step (`tryDevirtualizeApplyHelper`, lines
478-493): an apply site may be rewritten by the external devirtualizer into
a new instruction (the original apply is deleted); other instructions are
untouched. -/
def devirtStep (env : Env) : Inst → Inst
  | Inst.applySite s => (env.devirt s).getD (Inst.applySite s)
  | i => i

/-- Fuel-indexed embedding of `runOnFunctionRecursively` (lines 509-666).

`enter`: a function already in the `FullyInlinedSet` is not reprocessed
(line 517); a function already in the `CurrentInliningSet` is a circular
inline: one `circular` diagnostic at the triggering apply and failure
(lines 521-529); otherwise the function is added to the (branch-local)
current inlining set and its body is scanned.

`scan`: each instruction is devirtualized, resolved via
`getCalleeFunction`, recursively processed, checked with the external
inline engine, reference-count-fixed when thick, and spliced; the spliced
callee body is rescanned (the source resumes the reverse iteration at the
last inlined block).  A failed recursive call appends one note at this
frame's apply location, keeps the body as mutated so far, and propagates
failure (lines 578-594).  When the scan completes, the function joins the
`FullyInlinedSet` (line 664). -/
def run (env : Env) : Nat → Call → Option PassOut
  | 0, _ => none
  | Nat.succ fuel, Call.enter M F AI fis cis diags =>
      if F ∈ fis then some (PassOut.ok true M fis diags)
      else if F ∈ cis then
        some (PassOut.ok false M fis (diags ++ [Diag.circular (AI.getD 0)]))
      else
        run env fuel (Call.scan M F AI fis (F :: cis) diags [] (bodyOf M F))
  | Nat.succ fuel, Call.scan M F AI fis cis diags done todo =>
      match todo with
      | [] => some (PassOut.ok true (updateBody M F done) (F :: fis) diags)
      | inst :: rest =>
        match devirtStep env inst with
        | Inst.applySite site =>
          match getCalleeFunction env M (serializedOf M F) site with
          | ResolveOut.fatal => some PassOut.fatal
          | ResolveOut.fail M2 =>
              run env fuel
                (Call.scan M2 F AI fis cis diags (done ++ [Inst.applySite site]) rest)
          | ResolveOut.ok r M2 =>
            match run env fuel (Call.enter M2 r.calleeFn (some site.loc) fis cis diags) with
            | none => none
            | some PassOut.fatal => some PassOut.fatal
            | some (PassOut.ok false M3 fis3 diags3) =>
                some (PassOut.ok false
                  (updateBody M3 F (done ++ Inst.applySite site :: rest))
                  fis3 (diags3 ++ noteFor AI))
            | some (PassOut.ok true M3 fis3 diags3) =>
                if env.canInline site then
                  run env fuel (Call.scan M3 F AI fis3 cis diags3
                    (if r.isThick then
                       fixupReferenceCounts done site.calleeTag r.captures (paiGuaranteed r)
                     else done)
                    (bodyOf M3 r.calleeFn ++ rest))
                else
                  run env fuel
                    (Call.scan M3 F AI fis3 cis diags3 (done ++ [Inst.applySite site]) rest)
        | i => run env fuel (Call.scan M F AI fis cis diags (done ++ [i]) rest)

/-- Result of the module driver. -/
inductive DriverOut
  | fatal
  | ok (M : Module) (diags : List Diag)
  deriving DecidableEq, Repr

/-- Modelled from the spec: the external block-merge utility re-merges
trivially split blocks; the pass-level model has no block structure, so it
is the identity on the instruction list. -/
def mergeBasicBlocks (b : List Inst) : List Inst := b

/-- The per-function loop of `MandatoryInlining::run` (lines 684-699):
thunks and functions deserialized in canonical form are skipped; every
other function is processed by `runOnFunctionRecursively` (whose boolean
result the driver ignores) and then block-merged. -/
def runAll (env : Env) (fuel : Nat) :
    List Nat → Module → List Nat → List Diag → Option DriverOut
  | [], M, _, diags => some (DriverOut.ok M diags)
  | g :: gs, M, fis, diags =>
    match attrsOf M g with
    | none => runAll env fuel gs M fis diags
    | some a =>
      if a.isThunk then runAll env fuel gs M fis diags
      else if a.wasDeserializedCanonical then runAll env fuel gs M fis diags
      else
        match run env fuel (Call.enter M g none fis [] diags) with
        | none => none
        | some PassOut.fatal => some DriverOut.fatal
        | some (PassOut.ok _ M2 fis2 diags2) =>
            runAll env fuel gs (updateBody M2 g (mergeBasicBlocks (bodyOf M2 g))) fis2 diags2

/-- The erasure test of the final cleanup loop (lines 710-733): a function
is erased when its use count is zero, it is transparent, it is not
possibly used externally, and its representation is not an Objective-C
method (ObjC functions are called through the runtime and stay alive). -/
def shouldEraseFunction (fn : Fn) : Bool :=
  fn.attrs.refCount = 0 && fn.attrs.isTransparent
    && !fn.attrs.isPossiblyUsedExternally
    && !(fn.attrs.representation = Representation.objcMethod)

/-- The module-wide cleanup after all functions are processed (lines
701-733); disabled when `DebugSerialization` is set
(`ShouldCleanup`, line 679). -/
def cleanupDeadTransparent (shouldCleanup : Bool) (M : Module) : Module :=
  if shouldCleanup then M.filter (fun p => !(shouldEraseFunction p.2)) else M

/-- The whole pass `MandatoryInlining::run`: the per-function loop followed
by the cleanup. -/
def mandatoryInliningRun (env : Env) (fuel : Nat) (shouldCleanup : Bool)
    (M : Module) : Option DriverOut :=
  match runAll env fuel (M.map (fun p => p.1)) M [] [] with
  | some (DriverOut.ok M2 diags) =>
      some (DriverOut.ok (cleanupDeadTransparent shouldCleanup M2) diags)
  | o => o

def ResolveOut.mod : ResolveOut → Option Module
  | ResolveOut.fatal => none
  | ResolveOut.fail M => some M
  | ResolveOut.ok _ M => some M

/-- A function the per-function loop is allowed to visit: either it is a
resolved transparent callee, or it is neither a thunk nor deserialized in
canonical form (a top-level-eligible function). -/
def entryOK (M : Module) (g : Nat) : Prop :=
  ∃ a, attrsOf M g = some a ∧
    (a.isTransparent = true ∨ (a.isThunk = false ∧ a.wasDeserializedCanonical = false))

/-- A non-transparent thunk or deserialized-canonical function: the
per-function loop can never reach it. -/
def sheltered (M : Module) (g : Nat) : Prop :=
  ∃ a, attrsOf M g = some a ∧ a.isTransparent = false ∧
    (a.isThunk = true ∨ a.wasDeserializedCanonical = true)

/-- Every apply site left in a function body fails callee resolution. -/
def AllUnresolved (env : Env) (M : Module) (g : Nat) : Prop :=
  ∀ site, Inst.applySite site ∈ bodyOf M g →
    (getCalleeFunction env M (serializedOf M g) site).isFail = true

/-- Number of circular-inlining diagnostics in a diagnostic list. -/
def countCirculars (ds : List Diag) : Nat :=
  ds.countP (fun d => match d with | Diag.circular _ => true | _ => false)

/-- Example environment: the loader has no bodies, the inline engine
accepts every site, the devirtualizer never rewrites. -/
def envAccept : Env := ⟨fun _ => none, fun _ => true, fun _ => none⟩

/-- Example environment whose inline engine refuses every site. -/
def envRefuse : Env := ⟨fun _ => none, fun _ => false, fun _ => none⟩

/-- Example attribute records: an ordinary transparent function, an
ordinary non-transparent function, and a transparent thunk. -/
def exAttrsT : FnAttrs :=
  ⟨true, Representation.thin, false, false, false, true, true, false, 0⟩

def exAttrsN : FnAttrs :=
  ⟨false, Representation.thin, false, false, false, true, true, false, 0⟩

def exAttrsThunk : FnAttrs :=
  ⟨true, Representation.thin, true, false, false, true, true, false, 0⟩

/-- Example scenario with one must-inline call: function 0 calls the
transparent function 1. -/
def c1Site : ApplySiteData := ⟨50, 500, CalleeVal.funcRef 1, [], 0⟩

def c1Module : Module :=
  [(0, ⟨exAttrsN, [Inst.applySite c1Site]⟩), (1, ⟨exAttrsT, [Inst.other 3]⟩)]

def c1ModuleInlined : Module :=
  [(0, ⟨exAttrsN, [Inst.other 3]⟩), (1, ⟨exAttrsT, [Inst.other 3]⟩)]

/-- Example scenario for the reference-count fixup: one owned by-value
capture with value id 7; the callee value id is 5. -/
def c2Cap : Capture := ⟨7, false, ParamConvention.directOwned⟩

def c2ApplyInst : Inst := Inst.applySite ⟨70, 5, CalleeVal.unknown 0, [], 0⟩

/-- Example scenario with two mutually recursive must-inline functions:
function 0 calls function 1 at location 10 and function 1 calls function 0
at location 20. -/
def c3SiteA : ApplySiteData := ⟨10, 100, CalleeVal.funcRef 1, [], 0⟩

def c3SiteB : ApplySiteData := ⟨20, 200, CalleeVal.funcRef 0, [], 0⟩

def c3Module : Module :=
  [(0, ⟨exAttrsT, [Inst.applySite c3SiteA]⟩),
   (1, ⟨exAttrsT, [Inst.applySite c3SiteB]⟩)]

def c3Diags : List Diag :=
  [Diag.circular 20, Diag.note 10, Diag.circular 10, Diag.note 20]

/-- Example scenario for cycle failure semantics: function 0 first inlines
the transparent function 2, then calls the self-recursive transparent
function 1; function 3 inlines function 2 after the failure. -/
def c4S1 : ApplySiteData := ⟨30, 300, CalleeVal.funcRef 2, [], 0⟩

def c4S2 : ApplySiteData := ⟨31, 301, CalleeVal.funcRef 1, [], 0⟩

def c4S3 : ApplySiteData := ⟨32, 302, CalleeVal.funcRef 1, [], 0⟩

def c4S4 : ApplySiteData := ⟨33, 303, CalleeVal.funcRef 2, [], 0⟩

def c4Module : Module :=
  [(0, ⟨exAttrsN, [Inst.applySite c4S1, Inst.applySite c4S2]⟩),
   (1, ⟨exAttrsT, [Inst.applySite c4S3]⟩),
   (2, ⟨exAttrsT, [Inst.other 7]⟩),
   (3, ⟨exAttrsN, [Inst.applySite c4S4]⟩)]

/-- State of the `c4Module` scenario after the failed top-level run on
function 0: the completed inline of function 2 is retained, the call to
function 1 is intact. -/
def c4FailModule : Module :=
  [(0, ⟨exAttrsN, [Inst.other 7, Inst.applySite c4S2]⟩),
   (1, ⟨exAttrsT, [Inst.applySite c4S3]⟩),
   (2, ⟨exAttrsT, [Inst.other 7]⟩),
   (3, ⟨exAttrsN, [Inst.applySite c4S4]⟩)]

/-- State of the `c4Module` scenario after the whole per-function loop:
function 3 was still processed (and inlined into) after the failure on
function 0. -/
def c4ModuleAfter : Module :=
  [(0, ⟨exAttrsN, [Inst.other 7, Inst.applySite c4S2]⟩),
   (1, ⟨exAttrsT, [Inst.applySite c4S3]⟩),
   (2, ⟨exAttrsT, [Inst.other 7]⟩),
   (3, ⟨exAttrsN, [Inst.other 7]⟩)]

/-- Example scenario for the serialized-caller linkage rule: a transparent
callee without linkage valid for fragile inlining but with valid reference
linkage. -/
def c6CalleeAttrs : FnAttrs :=
  ⟨true, Representation.thin, false, false, false, false, true, false, 0⟩

def c6Module : Module := [(1, ⟨c6CalleeAttrs, [Inst.other 1]⟩)]

def c6Site : ApplySiteData := ⟨60, 600, CalleeVal.funcRef 1, [], 0⟩

/-- Example function for the cleanup loop: a transparent Objective-C
method with zero remaining uses and no external visibility. -/
def c7ObjCFn : Fn :=
  ⟨⟨true, Representation.objcMethod, false, false, false, true, true, false, 0⟩, []⟩

/-- Example scenario for the thunk frame property: function 0 (ordinary)
calls the transparent thunk 1, which itself calls the transparent
function 2. -/
def c9S1 : ApplySiteData := ⟨40, 400, CalleeVal.funcRef 1, [], 0⟩

def c9S2 : ApplySiteData := ⟨41, 401, CalleeVal.funcRef 2, [], 0⟩

def c9Module : Module :=
  [(0, ⟨exAttrsN, [Inst.applySite c9S1]⟩),
   (1, ⟨exAttrsThunk, [Inst.applySite c9S2]⟩),
   (2, ⟨exAttrsT, [Inst.other 9]⟩)]

def c9ModuleAfter : Module :=
  [(0, ⟨exAttrsN, [Inst.other 9]⟩),
   (1, ⟨exAttrsThunk, [Inst.other 9]⟩),
   (2, ⟨exAttrsT, [Inst.other 9]⟩)]

/-- Example non-transparent thunk, untouchable by the per-function loop. -/
def c9WitnessAttrs : FnAttrs :=
  ⟨false, Representation.thin, true, false, false, true, true, false, 0⟩

def c9WitnessModule : Module := [(0, ⟨c9WitnessAttrs, [Inst.other 2]⟩)]

end MandatoryInlining

namespace BoxModel

/-- Instruction kinds relevant to the boxed-callee pattern.  `term` is a
block terminator; `other` is any other instruction with the listed operand
values. -/
inductive BKind
  | allocBox
  | projectBox (box : Nat)
  | strongRetain (v : Nat)
  | strongRelease (v : Nat)
  | storeInst (src dest : Nat)
  | loadInst (addr : Nat)
  | term
  | other (ops : List Nat)
  deriving DecidableEq, Repr

/-- An instruction: its result-value id and its kind. -/
structure BInst where
  id : Nat
  kind : BKind
  deriving DecidableEq, Repr

/-- A function body: a list of basic blocks, each a list of instructions. -/
abbrev Blocks := List (List BInst)

def BKind.operands : BKind → List Nat
  | BKind.projectBox b => [b]
  | BKind.strongRetain v => [v]
  | BKind.strongRelease v => [v]
  | BKind.storeInst s d => [s, d]
  | BKind.loadInst a => [a]
  | BKind.other ops => ops
  | _ => []

def allInsts (blocks : Blocks) : List BInst := blocks.flatten

/-- The defining instruction of a value (SSA def-use: values are
instruction results, identified by the instruction id). -/
def defOf (blocks : Blocks) (v : Nat) : Option BInst :=
  (allInsts blocks).find? (fun i => i.id = v)

/-- The users of a value, in program order. -/
def usesOf (blocks : Blocks) (v : Nat) : List BInst :=
  (allInsts blocks).filter (fun i => v ∈ i.kind.operands)

def isRetainOrRelease : BKind → Bool
  | BKind.strongRetain _ => true
  | BKind.strongRelease _ => true
  | _ => false

def isRelease : BKind → Bool
  | BKind.strongRelease _ => true
  | _ => false

def isLoadKind : BKind → Bool
  | BKind.loadInst _ => true
  | _ => false

def isStoreKind : BKind → Bool
  | BKind.storeInst _ _ => true
  | _ => false

def storeSrc (i : BInst) : Option Nat :=
  match i.kind with
  | BKind.storeInst s _ => some s
  | _ => none

/-- The block containing a given instruction. -/
def blockOf (blocks : Blocks) (instId : Nat) : List BInst :=
  (blocks.find? (fun b => b.any (fun i => i.id = instId))).getD []

/-- The suffix of a block starting at a given instruction (the iterator
`SILBasicBlock::iterator(ABI)` of line 326 starts at the alloc_box
itself). -/
def suffixFrom (b : List BInst) (instId : Nat) : List BInst :=
  b.dropWhile (fun i => !(i.id = instId))

/-- Result of the forward store scan of lines 325-342. -/
inductive ScanResult
  | found (si : BInst)
  | hitLoad
  | endOfBlock (lastSI : Option BInst)
  deriving DecidableEq, Repr

/-- The loop of lines 326-342: walk the block forward; finding the load
first fails; a store whose destination is the project_box is the store
seen through.  The running variable `lastSI` renders the source's
`SI = dyn_cast<StoreInst>(I)`, which is re-assigned at every iteration:
after a natural loop exit the source consults that last assignment, which
is `nullptr` whenever the block's last instruction is not a store (in
particular whenever the block ends with a terminator). -/
def scanForStore (liId pbiId : Nat) : List BInst → Option BInst → ScanResult
  | [], lastSI => ScanResult.endOfBlock lastSI
  | i :: rest, _ =>
    if i.id = liId then ScanResult.hitLoad
    else
      match i.kind with
      | BKind.storeInst _ dest =>
          if dest = pbiId then ScanResult.found i
          else scanForStore liId pbiId rest (some i)
      | _ => scanForStore liId pbiId rest none

/-- The boxed-callee resolution of `getCalleeFunction`, lines 306-346: the
load's operand must be a `project_box` of an `alloc_box`; the alloc_box
must have no uses besides the project_box and retains/releases; a store to
the project_box must be found in the alloc_box's block before the load is
encountered; and once it is found, the project_box must have no uses
besides that store and loads.  On success the resolved callee value is the
store's source. -/
def resolveLoadedCallee (blocks : Blocks) (li : BInst) : Option Nat :=
  match li.kind with
  | BKind.loadInst addr =>
    match defOf blocks addr with
    | some pbi =>
      match pbi.kind with
      | BKind.projectBox box =>
        match defOf blocks box with
        | some abi =>
          match abi.kind with
          | BKind.allocBox =>
            if (usesOf blocks abi.id).all
                (fun u => u.id = pbi.id || isRetainOrRelease u.kind) then
              match scanForStore li.id pbi.id
                  (suffixFrom (blockOf blocks abi.id) abi.id) none with
              | ScanResult.found si =>
                  if (usesOf blocks pbi.id).all
                      (fun u => u.id = si.id || isLoadKind u.kind) then
                    storeSrc si
                  else none
              | ScanResult.hitLoad => none
              | ScanResult.endOfBlock (some si) => storeSrc si
              | ScanResult.endOfBlock none => none
            else none
          | _ => none
        | none => none
      | _ => none
    | none => none
  | _ => none

def eraseInst (blocks : Blocks) (instId : Nat) : Blocks :=
  blocks.map (fun b => b.filter (fun i => !(i.id = instId)))

def insertBeforeId (b : List BInst) (targetId : Nat) (newI : BInst) : List BInst :=
  match b with
  | [] => []
  | i :: rest =>
      if i.id = targetId then newI :: i :: rest
      else i :: insertBeforeId rest targetId newI

/-- The strong-release finding loop over the alloc_box uses of
`cleanupLoadedCalleeValue` (lines 88-99): up to one strong_release is
remembered; the project_box is skipped; any other use fails (`none`). -/
def findBoxRelease (pbiId : Nat) : List BInst → Option BInst → Option (Option BInst)
  | [], sri => some sri
  | u :: rest, sri =>
      if sri.isNone && isRelease u.kind then findBoxRelease pbiId rest (some u)
      else if u.id = pbiId then findBoxRelease pbiId rest sri
      else none

/-- The store finding loop over the project_box uses of
`cleanupLoadedCalleeValue` (lines 101-109): up to one store is remembered;
any other use fails (`none`). -/
def findBoxStore : List BInst → Option BInst → Option (Option BInst)
  | [], si => some si
  | u :: rest, si =>
      if si.isNone && isStoreKind u.kind then findBoxStore rest (some u)
      else none

/-- `cleanupLoadedCalleeValue` (lines 77-134), as a transformer of the
body returning the recovered callee value (if any) and the new body.  The
source `cast`s the load's operand chain to `project_box` of `alloc_box`
(the shape is guaranteed at every call site); on a shape mismatch the model
returns the body unchanged.  The load is erased as soon as it is seen to
have no remaining uses; only then are the alloc_box and project_box uses
validated, so a validation failure leaves everything but the load in
place.  `emitStrongReleaseAndFold` is rendered as inserting a fresh
strong_release of the recovered callee value before the old release (the
builder's peephole folding is outside the model); `freshId` is the id
minted for it. -/
def cleanupLoadedCalleeValue (blocks : Blocks) (li : BInst) (freshId : Nat) :
    Option Nat × Blocks :=
  match li.kind with
  | BKind.loadInst addr =>
    match defOf blocks addr with
    | some pbi =>
      match pbi.kind with
      | BKind.projectBox box =>
        match defOf blocks box with
        | some abi =>
          match abi.kind with
          | BKind.allocBox =>
            if !(usesOf blocks li.id).isEmpty then (none, blocks)
            else
              let blocks1 := eraseInst blocks li.id
              match findBoxRelease pbi.id (usesOf blocks1 abi.id) none with
              | none => (none, blocks1)
              | some sri? =>
                match findBoxStore (usesOf blocks1 pbi.id) none with
                | none => (none, blocks1)
                | some si? =>
                  let calleeSrc : Option Nat :=
                    match si? with
                    | some si => storeSrc si
                    | none => none
                  let blocks2 :=
                    match si? with
                    | some si => eraseInst blocks1 si.id
                    | none => blocks1
                  let blocks3 :=
                    match sri?, calleeSrc with
                    | some sri, some v =>
                        eraseInst
                          (blocks2.map (fun b =>
                            insertBeforeId b sri.id ⟨freshId, BKind.strongRelease v⟩))
                          sri.id
                    | some sri, none => eraseInst blocks2 sri.id
                    | none, _ => blocks2
                  (calleeSrc, eraseInst (eraseInst blocks3 pbi.id) abi.id)
          | _ => (none, blocks)
        | none => (none, blocks)
      | _ => (none, blocks)
    | none => (none, blocks)
  | _ => (none, blocks)

/-- Example body for the boxed-callee pattern: one block with an
alloc_box (1), its project_box (2), a store of value 9 into it (3), a
strong_retain of the box (4), the load (5) and the terminator (6). -/
def c5Blocks : Blocks :=
  [[⟨1, BKind.allocBox⟩, ⟨2, BKind.projectBox 1⟩, ⟨3, BKind.storeInst 9 2⟩,
    ⟨4, BKind.strongRetain 1⟩, ⟨5, BKind.loadInst 2⟩, ⟨6, BKind.term⟩]]

def c5Load : BInst := ⟨5, BKind.loadInst 2⟩

/-- Example body for the cleanup: like `c5Blocks`; the strong_retain of
the alloc_box (4) is accepted by resolution but rejected by the cleanup's
use validation. -/
def c10Blocks : Blocks := c5Blocks

def c10Load : BInst := c5Load

end BoxModel

namespace MandatoryInlining

theorem findFn_cons (k : Nat) (fn : Fn) (M : Module) (g : Nat) :
    findFn ((k, fn) :: M) g = if k = g then some fn else findFn M g := by
  by_cases h : k = g <;> simp [findFn, List.find?_cons, h]

theorem updateBody_cons (k : Nat) (fn : Fn) (M : Module) (f : Nat) (b : List Inst) :
    updateBody ((k, fn) :: M) f b =
      (if k = f then (k, { fn with body := b }) else (k, fn)) :: updateBody M f b := by
  by_cases h : k = f <;> simp [updateBody, h]

theorem findFn_updateBody (M : Module) (f g : Nat) (b : List Inst) :
    findFn (updateBody M f b) g =
      if g = f then (findFn M f).map (fun fn => { fn with body := b })
      else findFn M g := by
  induction M with
  | nil => by_cases h : g = f <;> simp [findFn, updateBody, h]
  | cons p M ih =>
    obtain ⟨k, fn⟩ := p
    rw [updateBody_cons]
    by_cases hkf : k = f
    · subst hkf
      by_cases hkg : k = g
      · subst hkg
        rw [if_pos rfl, findFn_cons, if_pos rfl, if_pos rfl, findFn_cons, if_pos rfl]
        rfl
      · have hgk : g ≠ k := fun h => hkg h.symm
        rw [if_pos rfl, findFn_cons, if_neg hkg, ih, if_neg hgk, if_neg hgk,
          findFn_cons, if_neg hkg]
    · rw [if_neg hkf, findFn_cons]
      by_cases hkg : k = g
      · subst hkg
        have hkf2 : (k : Nat) ≠ f := hkf
        rw [if_pos rfl, if_neg hkf2, findFn_cons, if_pos rfl]
      · rw [if_neg hkg, ih]
        by_cases hgf : g = f
        · rw [if_pos hgf, if_pos hgf, findFn_cons, if_neg hkf]
        · rw [if_neg hgf, if_neg hgf, findFn_cons, if_neg hkg]

theorem attrsOf_updateBody (M : Module) (f g : Nat) (b : List Inst) :
    attrsOf (updateBody M f b) g = attrsOf M g := by
  simp only [attrsOf, findFn_updateBody]
  by_cases h : g = f
  · subst h; cases findFn M g <;> simp
  · rw [if_neg h]

theorem bodyOf_updateBody_self (M : Module) (f : Nat) (b : List Inst) (fn : Fn)
    (h : findFn M f = some fn) : bodyOf (updateBody M f b) f = b := by
  simp [bodyOf, findFn_updateBody, h]

theorem bodyOf_updateBody_self_none (M : Module) (f : Nat) (b : List Inst)
    (h : findFn M f = none) : bodyOf (updateBody M f b) f = bodyOf M f := by
  simp [bodyOf, findFn_updateBody, h]

theorem bodyOf_updateBody_ne (M : Module) (f g : Nat) (b : List Inst)
    (h : g ≠ f) : bodyOf (updateBody M f b) g = bodyOf M g := by
  simp [bodyOf, findFn_updateBody, h]

theorem serializedOf_eq_of_attrs (M M2 : Module) (g : Nat)
    (h : attrsOf M2 g = attrsOf M g) : serializedOf M2 g = serializedOf M g := by
  simp [serializedOf, h]

/-- Evolution relation on modules along the pass: attributes never change;
a function whose body is empty and that the loader cannot fill stays
empty; a function with a non-empty body keeps a non-empty body. -/
def evolves (env : Env) (M M2 : Module) : Prop :=
  (∀ g, attrsOf M2 g = attrsOf M g) ∧
  (∀ g, bodyOf M g = [] → (env.loadBody g).getD [] = [] → bodyOf M2 g = []) ∧
  (∀ g, bodyOf M g ≠ [] → bodyOf M2 g ≠ [])

theorem evolves_refl (env : Env) (M : Module) : evolves env M M :=
  ⟨fun _ => rfl, fun _ h _ => h, fun _ h => h⟩

theorem evolves_trans {env : Env} {M1 M2 M3 : Module}
    (h12 : evolves env M1 M2) (h23 : evolves env M2 M3) : evolves env M1 M3 := by
  obtain ⟨a12, e12, n12⟩ := h12
  obtain ⟨a23, e23, n23⟩ := h23
  exact ⟨fun g => (a23 g).trans (a12 g),
    fun g h hl => e23 g (e12 g h hl) hl,
    fun g h => n23 g (n12 g h)⟩

theorem attrsOf_eq_none_iff (M : Module) (f : Nat) :
    attrsOf M f = none ↔ findFn M f = none := by
  cases h : findFn M f <;> simp [attrsOf, h]

theorem bodyOf_of_findFn {M : Module} {f : Nat} {fn : Fn}
    (h : findFn M f = some fn) : bodyOf M f = fn.body := by
  simp [bodyOf, h]

theorem attrsOf_of_findFn {M : Module} {f : Nat} {fn : Fn}
    (h : findFn M f = some fn) : attrsOf M f = some fn.attrs := by
  simp [attrsOf, h]

theorem exists_findFn_of_attrsOf {M : Module} {f : Nat} {a : FnAttrs}
    (h : attrsOf M f = some a) : ∃ fn, findFn M f = some fn ∧ fn.attrs = a := by
  cases hf : findFn M f with
  | none => rw [attrsOf, hf] at h; simp at h
  | some fn =>
    refine ⟨fn, rfl, ?_⟩
    rw [attrsOf, hf] at h
    simpa using h

theorem evolves_load {env : Env} {M : Module} {f : Nat} {fn : Fn} {b : List Inst}
    (h : findFn M f = some fn) (hb : fn.body = []) (hl : env.loadBody f = some b) :
    evolves env M (updateBody M f b) := by
  refine ⟨fun g => attrsOf_updateBody M f g b, ?_, ?_⟩
  · intro g hg hgl
    by_cases hgf : g = f
    · subst hgf
      rw [hl] at hgl
      simp only [Option.getD_some] at hgl
      subst hgl
      exact bodyOf_updateBody_self M g [] fn h
    · rw [bodyOf_updateBody_ne M f g b hgf]; exact hg
  · intro g hg
    by_cases hgf : g = f
    · subst hgf
      exact absurd (by rw [bodyOf_of_findFn h, hb]) hg
    · rw [bodyOf_updateBody_ne M f g b hgf]; exact hg

theorem loadIfEmpty_evolves (env : Env) {M : Module} {f : Nat} {fn : Fn}
    (h : findFn M f = some fn) : evolves env M (loadIfEmpty env M f fn).2 := by
  unfold loadIfEmpty
  split
  · next hb =>
    cases hl : env.loadBody f with
    | none => exact evolves_refl env M
    | some b => exact evolves_load h hb hl
  · exact evolves_refl env M

theorem loadIfEmpty_bodyOf (env : Env) {M : Module} {f : Nat} {fn : Fn}
    (h : findFn M f = some fn) :
    bodyOf (loadIfEmpty env M f fn).2 f = (loadIfEmpty env M f fn).1 := by
  unfold loadIfEmpty
  split
  · next hb =>
    cases hl : env.loadBody f with
    | none => simpa [bodyOf_of_findFn h]
    | some b => exact bodyOf_updateBody_self M f b fn h
  · next hb => exact bodyOf_of_findFn h

theorem loadIfEmpty_empty_cases (env : Env) (M : Module) (f : Nat) (fn : Fn)
    (h : (loadIfEmpty env M f fn).1 = []) :
    fn.body = [] ∧ (env.loadBody f).getD [] = [] := by
  unfold loadIfEmpty at h
  by_cases hb : fn.body = []
  · rw [if_pos hb] at h
    refine ⟨hb, ?_⟩
    cases hl : env.loadBody f with
    | none => simp
    | some b => rw [hl] at h; simpa using h
  · rw [if_neg hb] at h; exact absurd h hb

theorem loadIfEmpty_fst_of_empty (env : Env) (M : Module) (f : Nat) (fn : Fn)
    (hb : fn.body = []) : (loadIfEmpty env M f fn).1 = (env.loadBody f).getD [] := by
  unfold loadIfEmpty
  rw [if_pos hb]
  cases hl : env.loadBody f <;> simp [hl]

theorem getCalleeFunction_evolves (env : Env) (M : Module) (cs : Bool)
    (AI : ApplySiteData) (M2 : Module)
    (h : (getCalleeFunction env M cs AI).mod = some M2) : evolves env M M2 := by
  unfold getCalleeFunction at h
  split at h
  · simp [ResolveOut.mod] at h; exact h ▸ evolves_refl env M
  · next r hr =>
    split at h
    · simp [ResolveOut.mod] at h; exact h ▸ evolves_refl env M
    · next fn hf =>
      split at h
      · simp [ResolveOut.mod] at h; exact h ▸ evolves_refl env M
      · split at h
        · simp [ResolveOut.mod] at h; exact h ▸ evolves_refl env M
        · split at h
          · simp [ResolveOut.mod] at h
            exact h ▸ loadIfEmpty_evolves env hf
          · split at h
            · split at h
              · simp [ResolveOut.mod] at h
              · simp [ResolveOut.mod] at h
                exact h ▸ loadIfEmpty_evolves env hf
            · simp [ResolveOut.mod] at h
              exact h ▸ loadIfEmpty_evolves env hf

theorem getCalleeFunction_ok_facts (env : Env) (M : Module) (cs : Bool)
    (AI : ApplySiteData) (r : Resolution) (M2 : Module)
    (h : getCalleeFunction env M cs AI = ResolveOut.ok r M2) :
    resolveShape AI = some r ∧
    (∃ a, attrsOf M r.calleeFn = some a ∧ a.isTransparent = true ∧
      foreignRep a.representation = false) ∧
    bodyOf M2 r.calleeFn ≠ [] := by
  unfold getCalleeFunction at h
  split at h
  · exact absurd h (by simp)
  · next r0 hr =>
    split at h
    · exact absurd h (by simp)
    · next fn hf =>
      split at h
      · exact absurd h (by simp)
      · next hfor =>
        split at h
        · exact absurd h (by simp)
        · next htr =>
          split at h
          · exact absurd h (by simp)
          · next hne =>
            split at h
            · split at h
              · exact absurd h (by simp)
              · exact absurd h (by simp)
            · cases h
              refine ⟨hr, ⟨fn.attrs, attrsOf_of_findFn hf, ?_, ?_⟩, ?_⟩
              · simpa using htr
              · simpa using hfor
              · rw [loadIfEmpty_bodyOf env hf]; exact hne

theorem getCalleeFunction_fail_stable (env : Env) (M M2 : Module) (cs : Bool)
    (AI : ApplySiteData)
    (h : (getCalleeFunction env M cs AI).isFail = true)
    (hev : evolves env M M2) :
    (getCalleeFunction env M2 cs AI).isFail = true := by
  obtain ⟨hattrs, hemp, hne⟩ := hev
  unfold getCalleeFunction at h ⊢
  split at h
  · next hr => simp [hr, ResolveOut.isFail]
  · next r hr =>
    split at h
    · next hf =>
      have hf2 : findFn M2 r.calleeFn = none := by
        rw [← attrsOf_eq_none_iff] at hf ⊢
        rw [hattrs]; exact hf
      simp [hf2, ResolveOut.isFail]
    · next fn hf =>
      have hat2 : attrsOf M2 r.calleeFn = some fn.attrs := by
        rw [hattrs]; exact attrsOf_of_findFn hf
      obtain ⟨fn2, hf2, hfa2⟩ := exists_findFn_of_attrsOf hat2
      simp only [hf2, hfa2]
      split at h
      · next hfor => simp [hfor, ResolveOut.isFail]
      · next hfor =>
        rw [if_neg hfor]
        split at h
        · next htr => simp [htr, ResolveOut.isFail]
        · next htr =>
          rw [if_neg htr]
          split at h
          · -- the body was empty in M and the loader cannot fill it
            next hlb =>
            obtain ⟨hb0, hl0⟩ := loadIfEmpty_empty_cases env M r.calleeFn fn hlb
            have hbody2 : fn2.body = [] := by
              have hbz : bodyOf M2 r.calleeFn = [] :=
                hemp r.calleeFn (by rw [bodyOf_of_findFn hf]; exact hb0) hl0
              rw [bodyOf_of_findFn hf2] at hbz; exact hbz
            have hlbM2 : (loadIfEmpty env M2 r.calleeFn fn2).1 = [] := by
              rw [loadIfEmpty_fst_of_empty env M2 r.calleeFn fn2 hbody2]; exact hl0
            rw [if_pos hlbM2]
            simp [ResolveOut.isFail]
          · next hlb =>
            split at h
            · next hser =>
              split at h
              · simp [ResolveOut.isFail] at h
              · next href =>
                by_cases hlb2 : (loadIfEmpty env M2 r.calleeFn fn2).1 = []
                · rw [if_pos hlb2]; simp [ResolveOut.isFail]
                · rw [if_neg hlb2, if_pos hser, if_neg href]
                  simp [ResolveOut.isFail]
            · simp [ResolveOut.isFail] at h

theorem foldl_insertBefore (p : Capture → Bool) (f : Capture → Inst) :
    ∀ (caps : List Capture) (pre : List Inst),
    caps.foldl (fun acc c => if p c then insertBefore acc (f c) else acc) pre =
      pre ++ (caps.filter p).map f := by
  intro caps
  induction caps with
  | nil => intro pre; simp
  | cons c cs ih =>
    intro pre
    by_cases hc : p c
    · rw [List.foldl_cons, if_pos hc, ih (insertBefore pre (f c))]
      simp [insertBefore, List.filter_cons, hc]
    · rw [List.foldl_cons, if_neg hc, ih pre]
      simp [List.filter_cons, hc]

/-- Closed form of `fixupReferenceCounts`: the inserted prefix is one
increment per admitted capture, in order, followed by the decrement of the
callee value when the callee is not guaranteed. -/
theorem fixupReferenceCounts_eq (pre : List Inst) (t : Nat) (caps : List Capture)
    (g : Bool) :
    fixupReferenceCounts pre t caps g =
      pre ++ (caps.filter shouldRetainCapture).map (fun c => Inst.increment c.valueTag)
        ++ (if g then [] else [Inst.decrement t]) := by
  unfold fixupReferenceCounts
  rw [foldl_insertBefore]
  cases g <;> simp [insertBefore]

theorem applySite_mem_fixup {pre : List Inst} {t : Nat} {caps : List Capture}
    {g : Bool} {s : ApplySiteData}
    (h : Inst.applySite s ∈ fixupReferenceCounts pre t caps g) :
    Inst.applySite s ∈ pre := by
  rw [fixupReferenceCounts_eq] at h
  rcases List.mem_append.1 h with h1 | h1
  · rcases List.mem_append.1 h1 with h2 | h2
    · exact h2
    · obtain ⟨c, -, hc⟩ := List.mem_map.1 h2
      cases hc
  · cases g <;> simp at h1

theorem bodyOf_updateBody_self_cases (M : Module) (f : Nat) (b : List Inst) :
    bodyOf (updateBody M f b) f = b ∨
      (findFn M f = none ∧ bodyOf (updateBody M f b) f = bodyOf M f) := by
  cases hf : findFn M f with
  | none => exact Or.inr ⟨rfl, bodyOf_updateBody_self_none M f b hf⟩
  | some fn => exact Or.inl (bodyOf_updateBody_self M f b fn hf)

/-- Writing a non-empty body into a function that already has a non-empty
body is an evolution step. -/
theorem evolves_updateBody_keep (env : Env) (M : Module) (F : Nat) (b : List Inst)
    (hF : bodyOf M F ≠ []) (hb : b ≠ []) : evolves env M (updateBody M F b) := by
  refine ⟨fun g => attrsOf_updateBody M F g b, ?_, ?_⟩
  · intro g hg hl
    by_cases hgF : g = F
    · exact absurd (hgF ▸ hg) hF
    · rw [bodyOf_updateBody_ne M F g b hgF]; exact hg
  · intro g hg
    by_cases hgF : g = F
    · subst hgF
      rcases bodyOf_updateBody_self_cases M g b with hc | ⟨-, hc⟩ <;>
        rw [hc] <;> assumption
    · rw [bodyOf_updateBody_ne M F g b hgF]; exact hg

/-- Writing a body that is empty only when the previous body was empty is
an evolution step (the success write-back case, with the scan invariant
relating `done`/`todo` to the original body). -/
theorem evolves_updateBody_of_iff (env : Env) (M : Module) (F : Nat) (b : List Inst)
    (hiff : bodyOf M F = [] → b = []) (hne : bodyOf M F ≠ [] → b ≠ []) :
    evolves env M (updateBody M F b) := by
  refine ⟨fun g => attrsOf_updateBody M F g b, ?_, ?_⟩
  · intro g hg hl
    by_cases hgF : g = F
    · subst hgF
      rcases bodyOf_updateBody_self_cases M g b with hc | ⟨-, hc⟩
      · rw [hc]; exact hiff hg
      · rw [hc]; exact hg
    · rw [bodyOf_updateBody_ne M F g b hgF]; exact hg
  · intro g hg
    by_cases hgF : g = F
    · subst hgF
      rcases bodyOf_updateBody_self_cases M g b with hc | ⟨-, hc⟩
      · rw [hc]; exact hne hg
      · rw [hc]; exact hg
    · rw [bodyOf_updateBody_ne M F g b hgF]; exact hg

/-- Along a successful activation, the module only evolves: attributes are
constant, unloadable empty bodies stay empty, non-empty bodies stay
non-empty.  The `scan` part assumes the invariant that the current
function's stored body is empty exactly when nothing is left to scan and
nothing was accumulated. -/
theorem run_evolves (env : Env) : ∀ fuel : Nat,
    (∀ M F AI fis cis diags b M2 fis2 ds2,
      run env fuel (Call.enter M F AI fis cis diags) = some (PassOut.ok b M2 fis2 ds2) →
      evolves env M M2) ∧
    (∀ M F AI fis cis diags done todo b M2 fis2 ds2,
      run env fuel (Call.scan M F AI fis cis diags done todo) =
          some (PassOut.ok b M2 fis2 ds2) →
      (bodyOf M F = [] ↔ (done = [] ∧ todo = [])) →
      evolves env M M2) := by
  intro fuel
  induction fuel with
  | zero =>
    constructor
    · intro M F AI fis cis diags b M2 fis2 ds2 h
      simp [run] at h
    · intro M F AI fis cis diags done todo b M2 fis2 ds2 h
      simp [run] at h
  | succ n ih =>
    obtain ⟨ihE, ihS⟩ := ih
    constructor
    · intro M F AI fis cis diags b M2 fis2 ds2 h
      simp only [run] at h
      split at h
      · simp only [Option.some.injEq, PassOut.ok.injEq] at h
        exact h.2.1 ▸ evolves_refl env M
      · split at h
        · simp only [Option.some.injEq, PassOut.ok.injEq] at h
          exact h.2.1 ▸ evolves_refl env M
        · exact ihS M F AI fis (F :: cis) diags [] (bodyOf M F) b M2 fis2 ds2 h
            (by constructor
                · intro h0; exact ⟨rfl, h0⟩
                · rintro ⟨-, h0⟩; exact h0)
    · intro M F AI fis cis diags done todo b M2 fis2 ds2 h hiff
      cases todo with
      | nil =>
        simp only [run, Option.some.injEq, PassOut.ok.injEq] at h
        obtain ⟨-, hM, -, -⟩ := h
        refine hM ▸ evolves_updateBody_of_iff env M F done ?_ ?_
        · intro h0; exact (hiff.mp h0).1
        · intro h0 hd
          exact h0 (hiff.mpr ⟨hd, rfl⟩)
      | cons inst rest =>
        have hFne : bodyOf M F ≠ [] := by
          intro h0
          exact (List.cons_ne_nil inst rest) (hiff.mp h0).2
        simp only [run] at h
        split at h
        · next site hdv =>
          split at h
          · simp at h
          · next M2x hgcf =>
            have hev1 : evolves env M M2x :=
              getCalleeFunction_evolves env M (serializedOf M F) site M2x
                (by rw [hgcf]; rfl)
            have hev2 := ihS M2x F AI fis cis diags (done ++ [Inst.applySite site]) rest
              b M2 fis2 ds2 h
              (iff_of_false (hev1.2.2 F hFne) (by simp))
            exact evolves_trans hev1 hev2
          · next r M2x hgcf =>
            have hev1 : evolves env M M2x :=
              getCalleeFunction_evolves env M (serializedOf M F) site M2x
                (by rw [hgcf]; rfl)
            split at h
            · exact absurd h (by simp)
            · exact absurd h (by simp)
            · next M3 fis3 ds3 hrec =>
              simp only [Option.some.injEq, PassOut.ok.injEq] at h
              obtain ⟨-, hM, -, -⟩ := h
              have hev2 : evolves env M2x M3 := ihE M2x r.calleeFn (some site.loc)
                fis cis diags false M3 fis3 ds3 hrec
              have hFne3 : bodyOf M3 F ≠ [] :=
                hev2.2.2 F (hev1.2.2 F hFne)
              refine hM ▸ evolves_trans (evolves_trans hev1 hev2)
                (evolves_updateBody_keep env M3 F _ hFne3 (by simp))
            · next M3 fis3 ds3 hrec =>
              have hev2 : evolves env M2x M3 := ihE M2x r.calleeFn (some site.loc)
                fis cis diags true M3 fis3 ds3 hrec
              have hFne3 : bodyOf M3 F ≠ [] :=
                hev2.2.2 F (hev1.2.2 F hFne)
              have hcne : bodyOf M3 r.calleeFn ≠ [] := by
                have hfacts := getCalleeFunction_ok_facts env M (serializedOf M F)
                  site r M2x hgcf
                exact hev2.2.2 r.calleeFn hfacts.2.2
              split at h
              · have hev3 := ihS M3 F AI fis3 cis ds3 _ _ b M2 fis2 ds2 h
                  (iff_of_false hFne3 (by simp [hcne]))
                exact evolves_trans (evolves_trans hev1 hev2) hev3
              · have hev3 := ihS M3 F AI fis3 cis ds3 (done ++ [Inst.applySite site])
                  rest b M2 fis2 ds2 h (iff_of_false hFne3 (by simp))
                exact evolves_trans (evolves_trans hev1 hev2) hev3
        · exact ihS M F AI fis cis diags (done ++ [devirtStep env inst]) rest
            b M2 fis2 ds2 h (iff_of_false hFne (by simp))

/-- Diagnostics bookkeeping: a successful activation emits no diagnostics;
a failed one appends exactly one circular diagnostic followed by a list of
notes. -/
theorem run_diags (env : Env) : ∀ fuel : Nat,
    (∀ M F AI fis cis diags b M2 fis2 ds2,
      run env fuel (Call.enter M F AI fis cis diags) = some (PassOut.ok b M2 fis2 ds2) →
      (b = true → ds2 = diags) ∧
      (b = false → ∃ (l : Nat) (ls : List Nat),
        ds2 = diags ++ Diag.circular l :: ls.map Diag.note)) ∧
    (∀ M F AI fis cis diags done todo b M2 fis2 ds2,
      run env fuel (Call.scan M F AI fis cis diags done todo) =
          some (PassOut.ok b M2 fis2 ds2) →
      (b = true → ds2 = diags) ∧
      (b = false → ∃ (l : Nat) (ls : List Nat),
        ds2 = diags ++ Diag.circular l :: ls.map Diag.note)) := by
  intro fuel
  induction fuel with
  | zero =>
    constructor
    · intro M F AI fis cis diags b M2 fis2 ds2 h
      simp [run] at h
    · intro M F AI fis cis diags done todo b M2 fis2 ds2 h
      simp [run] at h
  | succ n ih =>
    obtain ⟨ihE, ihS⟩ := ih
    constructor
    · intro M F AI fis cis diags b M2 fis2 ds2 h
      simp only [run] at h
      split at h
      · simp only [Option.some.injEq, PassOut.ok.injEq] at h
        obtain ⟨hb, -, -, hd⟩ := h
        constructor
        · intro _; exact hd.symm
        · intro hb0; rw [← hb] at hb0; cases hb0
      · split at h
        · simp only [Option.some.injEq, PassOut.ok.injEq] at h
          obtain ⟨hb, -, -, hd⟩ := h
          constructor
          · intro hb1; rw [← hb] at hb1; cases hb1
          · intro _
            exact ⟨AI.getD 0, [], by simp [hd.symm]⟩
        · exact ihS M F AI fis (F :: cis) diags [] (bodyOf M F) b M2 fis2 ds2 h
    · intro M F AI fis cis diags done todo b M2 fis2 ds2 h
      cases todo with
      | nil =>
        simp only [run, Option.some.injEq, PassOut.ok.injEq] at h
        obtain ⟨hb, -, -, hd⟩ := h
        constructor
        · intro _; exact hd.symm
        · intro hb0; rw [← hb] at hb0; cases hb0
      | cons inst rest =>
        simp only [run] at h
        split at h
        · next site hdv =>
          split at h
          · simp at h
          · next M2x hgcf =>
            exact ihS M2x F AI fis cis diags (done ++ [Inst.applySite site]) rest
              b M2 fis2 ds2 h
          · next r M2x hgcf =>
            split at h
            · exact absurd h (by simp)
            · exact absurd h (by simp)
            · next M3 fis3 ds3 hrec =>
              simp only [Option.some.injEq, PassOut.ok.injEq] at h
              obtain ⟨hb, -, -, hd⟩ := h
              have hinner := (ihE M2x r.calleeFn (some site.loc) fis cis diags
                false M3 fis3 ds3 hrec).2 rfl
              obtain ⟨l, ls, hds3⟩ := hinner
              constructor
              · intro hb1; rw [← hb] at hb1; cases hb1
              · intro _
                refine ⟨l, ls ++ (AI.toList), ?_⟩
                rw [← hd, hds3]
                cases AI <;> simp [noteFor]
            · next M3 fis3 ds3 hrec =>
              have hinner := (ihE M2x r.calleeFn (some site.loc) fis cis diags
                true M3 fis3 ds3 hrec).1 rfl
              split at h
              · have hcont := ihS M3 F AI fis3 cis ds3 _ _ b M2 fis2 ds2 h
                rw [hinner] at hcont
                exact hcont
              · have hcont := ihS M3 F AI fis3 cis ds3 (done ++ [Inst.applySite site])
                  rest b M2 fis2 ds2 h
                rw [hinner] at hcont
                exact hcont
        · exact ihS M F AI fis cis diags (done ++ [devirtStep env inst]) rest
            b M2 fis2 ds2 h

theorem sheltered_ne {M : Module} {g F : Nat}
    (hs : sheltered M g) (he : entryOK M F) : g ≠ F := by
  rintro rfl
  obtain ⟨a, ha, hnt, htd⟩ := hs
  obtain ⟨a2, ha2, hok⟩ := he
  rw [ha] at ha2
  cases ha2
  rcases hok with h1 | ⟨h2, h3⟩
  · rw [hnt] at h1; cases h1
  · rcases htd with h4 | h4
    · rw [h2] at h4; cases h4
    · rw [h3] at h4; cases h4

theorem sheltered_of_attrsEq {M M2 : Module} {g : Nat}
    (ha : ∀ x, attrsOf M2 x = attrsOf M x) (h : sheltered M g) : sheltered M2 g := by
  obtain ⟨a, h1, h2, h3⟩ := h
  exact ⟨a, (ha g).trans h1, h2, h3⟩

theorem entryOK_of_attrsEq {M M2 : Module} {g : Nat}
    (ha : ∀ x, attrsOf M2 x = attrsOf M x) (h : entryOK M g) : entryOK M2 g := by
  obtain ⟨a, h1, h2⟩ := h
  exact ⟨a, (ha g).trans h1, h2⟩

theorem loadIfEmpty_bodyOf_other (env : Env) (M : Module) (f : Nat) (fn : Fn)
    (g : Nat) (hne : g ≠ f) : bodyOf (loadIfEmpty env M f fn).2 g = bodyOf M g := by
  unfold loadIfEmpty
  split
  · cases hl : env.loadBody f with
    | none => rfl
    | some b => exact bodyOf_updateBody_ne M f g b hne
  · rfl

/-- Callee resolution only ever writes the body of the resolved transparent
callee (the best-effort load); the body of any non-transparent function is
untouched. -/
theorem getCalleeFunction_preserves_nontransparent (env : Env) (M : Module)
    (cs : Bool) (AI : ApplySiteData) (M2 : Module)
    (h : (getCalleeFunction env M cs AI).mod = some M2)
    (g : Nat) (a : FnAttrs) (hga : attrsOf M g = some a)
    (hnt : a.isTransparent = false) : bodyOf M2 g = bodyOf M g := by
  unfold getCalleeFunction at h
  split at h
  · simp [ResolveOut.mod] at h; rw [← h]
  · next r hr =>
    split at h
    · simp [ResolveOut.mod] at h; rw [← h]
    · next fn hf =>
      have hgne : ∀ hh : fn.attrs.isTransparent = true, g ≠ r.calleeFn := by
        intro hh hgc
        rw [hgc, attrsOf_of_findFn hf] at hga
        cases hga
        rw [hnt] at hh; cases hh
      split at h
      · simp [ResolveOut.mod] at h; rw [← h]
      · split at h
        · simp [ResolveOut.mod] at h; rw [← h]
        · next htr =>
          have htr2 : fn.attrs.isTransparent = true := by
            cases hx : fn.attrs.isTransparent
            · exact absurd hx htr
            · rfl
          split at h
          · simp [ResolveOut.mod] at h
            rw [← h]
            exact loadIfEmpty_bodyOf_other env M r.calleeFn fn g (hgne htr2)
          · split at h
            · split at h
              · simp [ResolveOut.mod] at h
              · simp [ResolveOut.mod] at h
                rw [← h]
                exact loadIfEmpty_bodyOf_other env M r.calleeFn fn g (hgne htr2)
            · simp [ResolveOut.mod] at h
              rw [← h]
              exact loadIfEmpty_bodyOf_other env M r.calleeFn fn g (hgne htr2)

/-- Frame property of the per-function machinery: a non-transparent thunk
or deserialized-canonical function can be neither scanned nor loaded, so
its body survives any activation unchanged, as long as the activated
function itself is a legitimate entry (top-level-eligible or a transparent
callee). -/
theorem run_protected (env : Env) : ∀ fuel : Nat,
    (∀ M F AI fis cis diags b M2 fis2 ds2,
      run env fuel (Call.enter M F AI fis cis diags) = some (PassOut.ok b M2 fis2 ds2) →
      entryOK M F →
      ∀ g, sheltered M g → bodyOf M2 g = bodyOf M g) ∧
    (∀ M F AI fis cis diags done todo b M2 fis2 ds2,
      run env fuel (Call.scan M F AI fis cis diags done todo) =
          some (PassOut.ok b M2 fis2 ds2) →
      entryOK M F →
      ∀ g, sheltered M g → bodyOf M2 g = bodyOf M g) := by
  intro fuel
  induction fuel with
  | zero =>
    constructor
    · intro M F AI fis cis diags b M2 fis2 ds2 h
      simp [run] at h
    · intro M F AI fis cis diags done todo b M2 fis2 ds2 h
      simp [run] at h
  | succ n ih =>
    obtain ⟨ihE, ihS⟩ := ih
    constructor
    · intro M F AI fis cis diags b M2 fis2 ds2 h hok g hg
      simp only [run] at h
      split at h
      · simp only [Option.some.injEq, PassOut.ok.injEq] at h
        rw [← h.2.1]
      · split at h
        · simp only [Option.some.injEq, PassOut.ok.injEq] at h
          rw [← h.2.1]
        · exact ihS M F AI fis (F :: cis) diags [] (bodyOf M F) b M2 fis2 ds2 h hok g hg
    · intro M F AI fis cis diags done todo b M2 fis2 ds2 h hok g hg
      cases todo with
      | nil =>
        simp only [run, Option.some.injEq, PassOut.ok.injEq] at h
        obtain ⟨-, hM, -, -⟩ := h
        rw [← hM]
        exact bodyOf_updateBody_ne M F g done (sheltered_ne hg hok)
      | cons inst rest =>
        simp only [run] at h
        split at h
        · next site hdv =>
          split at h
          · simp at h
          · next M2x hgcf =>
            have hmod : (getCalleeFunction env M (serializedOf M F) site).mod
                = some M2x := by rw [hgcf]; rfl
            have hev1 : evolves env M M2x :=
              getCalleeFunction_evolves env M (serializedOf M F) site M2x hmod
            have hstep : bodyOf M2x g = bodyOf M g := by
              obtain ⟨a, ha, hnt, -⟩ := hg
              exact getCalleeFunction_preserves_nontransparent env M
                (serializedOf M F) site M2x hmod g a ha hnt
            rw [← hstep]
            exact ihS M2x F AI fis cis diags (done ++ [Inst.applySite site]) rest
              b M2 fis2 ds2 h (entryOK_of_attrsEq hev1.1 hok) g
              (sheltered_of_attrsEq hev1.1 hg)
          · next r M2x hgcf =>
            have hmod : (getCalleeFunction env M (serializedOf M F) site).mod
                = some M2x := by rw [hgcf]; rfl
            have hev1 : evolves env M M2x :=
              getCalleeFunction_evolves env M (serializedOf M F) site M2x hmod
            have hstep1 : bodyOf M2x g = bodyOf M g := by
              obtain ⟨a, ha, hnt, -⟩ := hg
              exact getCalleeFunction_preserves_nontransparent env M
                (serializedOf M F) site M2x hmod g a ha hnt
            have hokx : entryOK M2x F := entryOK_of_attrsEq hev1.1 hok
            have hgx : sheltered M2x g := sheltered_of_attrsEq hev1.1 hg
            have hokc : entryOK M2x r.calleeFn := by
              obtain ⟨-, ⟨a, ha, hat, -⟩, -⟩ := getCalleeFunction_ok_facts env M
                (serializedOf M F) site r M2x hgcf
              exact ⟨a, (hev1.1 r.calleeFn).trans ha, Or.inl hat⟩
            split at h
            · exact absurd h (by simp)
            · exact absurd h (by simp)
            · next M3 fis3 ds3 hrec =>
              simp only [Option.some.injEq, PassOut.ok.injEq] at h
              obtain ⟨-, hM, -, -⟩ := h
              have hev2 : evolves env M2x M3 :=
                ((run_evolves env) n).1 M2x r.calleeFn (some site.loc)
                  fis cis diags false M3 fis3 ds3 hrec
              have hstep2 : bodyOf M3 g = bodyOf M2x g :=
                ihE M2x r.calleeFn (some site.loc) fis cis diags false M3 fis3 ds3
                  hrec hokc g hgx
              have hok3 : entryOK M3 F := entryOK_of_attrsEq hev2.1 hokx
              have hg3 : sheltered M3 g := sheltered_of_attrsEq hev2.1 hgx
              rw [← hM, bodyOf_updateBody_ne M3 F g _ (sheltered_ne hg3 hok3),
                hstep2, hstep1]
            · next M3 fis3 ds3 hrec =>
              have hev2 : evolves env M2x M3 :=
                ((run_evolves env) n).1 M2x r.calleeFn (some site.loc)
                  fis cis diags true M3 fis3 ds3 hrec
              have hstep2 : bodyOf M3 g = bodyOf M2x g :=
                ihE M2x r.calleeFn (some site.loc) fis cis diags true M3 fis3 ds3
                  hrec hokc g hgx
              have hok3 : entryOK M3 F := entryOK_of_attrsEq hev2.1 hokx
              have hg3 : sheltered M3 g := sheltered_of_attrsEq hev2.1 hgx
              split at h
              · have hcont := ihS M3 F AI fis3 cis ds3 _ _ b M2 fis2 ds2 h hok3 g hg3
                rw [hcont, hstep2, hstep1]
              · have hcont := ihS M3 F AI fis3 cis ds3
                  (done ++ [Inst.applySite site]) rest b M2 fis2 ds2 h hok3 g hg3
                rw [hcont, hstep2, hstep1]
        · exact ihS M F AI fis cis diags (done ++ [devirtStep env inst]) rest
            b M2 fis2 ds2 h hok g hg

theorem isFail_transfer (env : Env) (M M2 : Module) (F : Nat) (site : ApplySiteData)
    (hev : evolves env M M2)
    (h : (getCalleeFunction env M (serializedOf M F) site).isFail = true) :
    (getCalleeFunction env M2 (serializedOf M2 F) site).isFail = true := by
  rw [serializedOf_eq_of_attrs M M2 F (hev.1 F)]
  exact getCalleeFunction_fail_stable env M M2 (serializedOf M F) site h hev

/-- The core fixpoint property: when an activation of
`runOnFunctionRecursively` succeeds and the external inline engine accepts
every site, the processed function's final body has no apply site whose
callee resolves. -/
theorem run_allUnresolved (env : Env) (hCI : ∀ s, env.canInline s = true) :
    ∀ fuel : Nat,
    (∀ M F AI fis cis diags M2 fis2 ds2,
      run env fuel (Call.enter M F AI fis cis diags) =
          some (PassOut.ok true M2 fis2 ds2) →
      F ∉ fis →
      AllUnresolved env M2 F) ∧
    (∀ M F AI fis cis diags done todo M2 fis2 ds2,
      run env fuel (Call.scan M F AI fis cis diags done todo) =
          some (PassOut.ok true M2 fis2 ds2) →
      (∀ site, Inst.applySite site ∈ done →
        (getCalleeFunction env M (serializedOf M F) site).isFail = true) →
      (bodyOf M F = [] ↔ (done = [] ∧ todo = [])) →
      AllUnresolved env M2 F) := by
  intro fuel
  induction fuel with
  | zero =>
    constructor
    · intro M F AI fis cis diags M2 fis2 ds2 h
      simp [run] at h
    · intro M F AI fis cis diags done todo M2 fis2 ds2 h
      simp [run] at h
  | succ n ih =>
    obtain ⟨ihE, ihS⟩ := ih
    constructor
    · intro M F AI fis cis diags M2 fis2 ds2 h hFfis
      simp only [run] at h
      split at h
      · next hfis => exact absurd hfis hFfis
      · split at h
        · simp at h
        · exact ihS M F AI fis (F :: cis) diags [] (bodyOf M F) M2 fis2 ds2 h
            (by intro site hmem; cases hmem)
            (by constructor
                · intro h0; exact ⟨rfl, h0⟩
                · rintro ⟨-, h0⟩; exact h0)
    · intro M F AI fis cis diags done todo M2 fis2 ds2 h hdone hiff
      cases todo with
      | nil =>
        simp only [run, Option.some.injEq, PassOut.ok.injEq] at h
        obtain ⟨-, hM, -, -⟩ := h
        have hev : evolves env M M2 := by
          refine hM ▸ evolves_updateBody_of_iff env M F done ?_ ?_
          · intro h0; exact (hiff.mp h0).1
          · intro h0 hd; exact h0 (hiff.mpr ⟨hd, rfl⟩)
        intro site hmem
        rcases (hM ▸ bodyOf_updateBody_self_cases M F done :
            bodyOf M2 F = done ∨ (findFn M F = none ∧ bodyOf M2 F = bodyOf M F))
          with hc | ⟨hnone, hc⟩
        · rw [hc] at hmem
          exact isFail_transfer env M M2 F site hev (hdone site hmem)
        · rw [hc] at hmem
          rw [show bodyOf M F = [] from by simp [bodyOf, hnone]] at hmem
          cases hmem
      | cons inst rest =>
        have hFne : bodyOf M F ≠ [] := by
          intro h0
          exact (List.cons_ne_nil inst rest) (hiff.mp h0).2
        simp only [run] at h
        split at h
        · next site hdv =>
          split at h
          · simp at h
          · next M2x hgcf =>
            have hev1 : evolves env M M2x :=
              getCalleeFunction_evolves env M (serializedOf M F) site M2x
                (by rw [hgcf]; rfl)
            refine ihS M2x F AI fis cis diags (done ++ [Inst.applySite site]) rest
              M2 fis2 ds2 h ?_ (iff_of_false (hev1.2.2 F hFne) (by simp))
            intro s hmem
            rcases List.mem_append.1 hmem with hmem | hmem
            · exact isFail_transfer env M M2x F s hev1 (hdone s hmem)
            · have hs : s = site := by
                simp only [List.mem_singleton] at hmem
                cases hmem; rfl
              subst hs
              have hfail : (getCalleeFunction env M (serializedOf M F) s).isFail
                  = true := by rw [hgcf]; rfl
              exact isFail_transfer env M M2x F s hev1 hfail
          · next r M2x hgcf =>
            have hev1 : evolves env M M2x :=
              getCalleeFunction_evolves env M (serializedOf M F) site M2x
                (by rw [hgcf]; rfl)
            split at h
            · exact absurd h (by simp)
            · exact absurd h (by simp)
            · exact absurd h (by simp)
            · next M3 fis3 ds3 hrec =>
              have hev2 : evolves env M2x M3 :=
                ((run_evolves env) n).1 M2x r.calleeFn (some site.loc)
                  fis cis diags true M3 fis3 ds3 hrec
              have hev12 : evolves env M M3 := evolves_trans hev1 hev2
              have hFne3 : bodyOf M3 F ≠ [] := hev12.2.2 F hFne
              have hcne : bodyOf M3 r.calleeFn ≠ [] := by
                have hfacts := getCalleeFunction_ok_facts env M (serializedOf M F)
                  site r M2x hgcf
                exact hev2.2.2 r.calleeFn hfacts.2.2
              split at h
              · refine ihS M3 F AI fis3 cis ds3 _ _ M2 fis2 ds2 h ?_
                  (iff_of_false hFne3 (by simp [hcne]))
                intro s hmem
                have hmem2 : Inst.applySite s ∈ done := by
                  split at hmem
                  · exact applySite_mem_fixup hmem
                  · exact hmem
                exact isFail_transfer env M M3 F s hev12 (hdone s hmem2)
              · next hci =>
                exact absurd (hCI site) hci
        · next hne2 =>
          refine ihS M F AI fis cis diags (done ++ [devirtStep env inst]) rest
            M2 fis2 ds2 h ?_ (iff_of_false hFne (by simp))
          intro s hmem
          rcases List.mem_append.1 hmem with hmem | hmem
          · exact hdone s hmem
          · exfalso
            simp only [List.mem_singleton] at hmem
            exact hne2 s hmem.symm

theorem loadIfEmpty_change (env : Env) (M : Module) (f : Nat) (fn : Fn)
    (hf : findFn M f = some fn) (g : Nat)
    (h : bodyOf (loadIfEmpty env M f fn).2 g ≠ bodyOf M g) :
    bodyOf M g = [] ∧ bodyOf (loadIfEmpty env M f fn).2 g = (env.loadBody g).getD [] := by
  by_cases hgf : g = f
  · subst hgf
    unfold loadIfEmpty at h ⊢
    split at h
    · next hb =>
      cases hl : env.loadBody g with
      | none => simp only [hl] at h; exact absurd rfl h
      | some b =>
        refine ⟨by rw [bodyOf_of_findFn hf]; exact hb, ?_⟩
        rw [if_pos hb]
        simp only [Option.getD_some]
        exact bodyOf_updateBody_self M g b fn hf
    · exact absurd rfl h
  · rw [loadIfEmpty_bodyOf_other env M f fn g hgf] at h
    exact absurd rfl h

/-- Frame property of `getCalleeFunction`: the only change it can make to
the module is filling the empty body of the resolved callee with the
loader's result. -/
theorem getCalleeFunction_frame (env : Env) (M : Module) (cs : Bool)
    (AI : ApplySiteData) (M2 : Module)
    (h : (getCalleeFunction env M cs AI).mod = some M2) :
    ∀ g, bodyOf M2 g ≠ bodyOf M g →
      bodyOf M g = [] ∧ bodyOf M2 g = (env.loadBody g).getD [] := by
  unfold getCalleeFunction at h
  split at h
  · simp [ResolveOut.mod] at h
    intro g hg; rw [← h] at hg; exact absurd rfl hg
  · next r hr =>
    split at h
    · simp [ResolveOut.mod] at h
      intro g hg; rw [← h] at hg; exact absurd rfl hg
    · next fn hf =>
      split at h
      · simp [ResolveOut.mod] at h
        intro g hg; rw [← h] at hg; exact absurd rfl hg
      · split at h
        · simp [ResolveOut.mod] at h
          intro g hg; rw [← h] at hg; exact absurd rfl hg
        · split at h
          · simp [ResolveOut.mod] at h
            intro g hg
            rw [← h] at hg ⊢
            exact loadIfEmpty_change env M r.calleeFn fn hf g hg
          · split at h
            · split at h
              · simp [ResolveOut.mod] at h
              · simp [ResolveOut.mod] at h
                intro g hg
                rw [← h] at hg ⊢
                exact loadIfEmpty_change env M r.calleeFn fn hf g hg
            · simp [ResolveOut.mod] at h
              intro g hg
              rw [← h] at hg ⊢
              exact loadIfEmpty_change env M r.calleeFn fn hf g hg

/-- The whole per-function loop leaves the body of every non-transparent
thunk or deserialized-canonical function unchanged. -/
theorem runAll_protected (env : Env) (fuel : Nat) : ∀ (names : List Nat)
    (M : Module) (fis : List Nat) (diags : List Diag) (M2 : Module) (ds2 : List Diag),
    runAll env fuel names M fis diags = some (DriverOut.ok M2 ds2) →
    ∀ g, sheltered M g → bodyOf M2 g = bodyOf M g := by
  intro names
  induction names with
  | nil =>
    intro M fis diags M2 ds2 h g hg
    simp only [runAll, Option.some.injEq, DriverOut.ok.injEq] at h
    rw [← h.1]
  | cons x xs ih =>
    intro M fis diags M2 ds2 h g hg
    simp only [runAll] at h
    split at h
    · exact ih M fis diags M2 ds2 h g hg
    · next a ha =>
      split at h
      · exact ih M fis diags M2 ds2 h g hg
      · next hth =>
        split at h
        · exact ih M fis diags M2 ds2 h g hg
        · next hds =>
          split at h
          · simp at h
          · simp at h
          · next b M2x fis2x ds2x hrun =>
            have hok : entryOK M x := by
              refine ⟨a, ha, Or.inr ⟨?_, ?_⟩⟩
              · cases hx : a.isThunk
                · rfl
                · exact absurd hx hth
              · cases hx : a.wasDeserializedCanonical
                · rfl
                · exact absurd hx hds
            have h1 : bodyOf M2x g = bodyOf M g :=
              (run_protected env fuel).1 M x none fis [] diags b M2x fis2x ds2x
                hrun hok g hg
            have hevx : evolves env M M2x :=
              (run_evolves env fuel).1 M x none fis [] diags b M2x fis2x ds2x hrun
            have hgx : sheltered M2x g := sheltered_of_attrsEq hevx.1 hg
            have hokx : entryOK M2x x := entryOK_of_attrsEq hevx.1 hok
            have h2 : bodyOf (updateBody M2x x (mergeBasicBlocks (bodyOf M2x x))) g
                = bodyOf M2x g :=
              bodyOf_updateBody_ne M2x x g _ (sheltered_ne hgx hokx)
            have hg3 : sheltered (updateBody M2x x (mergeBasicBlocks (bodyOf M2x x))) g :=
              sheltered_of_attrsEq (fun t => attrsOf_updateBody M2x x t _) hgx
            have h3 := ih _ _ _ M2 ds2 h g hg3
            rw [h3, h2, h1]

/-- Claim C1, counterexample: with an inline engine that refuses a site,
the pass on function 0 succeeds without any circular diagnostic (its
must-inline closure is acyclic), yet function 0 keeps an apply site whose
callee resolves to a must-inline function — the claim as stated, without
an engine-acceptance proviso, is false. -/
theorem c1_counterexample :
    run envRefuse 10 (Call.enter c1Module 0 none [] [] []) =
        some (PassOut.ok true c1Module [0, 1] []) ∧
    Inst.applySite c1Site ∈ bodyOf c1Module 0 ∧
    (getCalleeFunction envRefuse c1Module (serializedOf c1Module 0) c1Site).isFail
      = false := by
  refine ⟨by decide, by decide, by decide⟩

/-- Claim C1, amended: for every function F on which
`runOnFunctionRecursively` runs without reporting a circular-inlining
diagnostic (the code's detection of an acyclic transitive must-inline
closure), and provided the external inline engine accepts every site, the
run succeeds and F's final body contains zero must-inline call sites:
every apply site left in it fails callee resolution. -/
theorem c1_theorem (env : Env) (fuel : Nat) (M : Module) (F : Nat) (b : Bool)
    (M2 : Module) (fis2 : List Nat) (ds2 : List Diag)
    (hCI : ∀ s, env.canInline s = true)
    (hrun : run env fuel (Call.enter M F none [] [] []) =
      some (PassOut.ok b M2 fis2 ds2))
    (hacyc : ∀ l, Diag.circular l ∉ ds2) :
    b = true ∧ AllUnresolved env M2 F := by
  have hb : b = true := by
    cases hbv : b with
    | false =>
      obtain ⟨l, ls, hds⟩ :=
        ((run_diags env fuel).1 M F none [] [] [] b M2 fis2 ds2 hrun).2 hbv
      exact absurd (show Diag.circular l ∈ ds2 by rw [hds]; simp) (hacyc l)
    | true => rfl
  subst hb
  exact ⟨rfl, (run_allUnresolved env hCI fuel).1 M F none [] [] [] M2 fis2 ds2
    hrun (by simp)⟩

/-- Claim C1, witness: the amended theorem applied to the concrete
one-call scenario with an engine that accepts every site; the call is
inlined and no resolvable apply site remains. -/
theorem c1_witness :
    run envAccept 10 (Call.enter c1Module 0 none [] [] []) =
        some (PassOut.ok true c1ModuleInlined [0, 1] []) ∧
    AllUnresolved envAccept c1ModuleInlined 0 :=
  ⟨by decide,
    (c1_theorem envAccept 10 c1Module 0 true c1ModuleInlined [0, 1] []
      (fun _ => rfl) (by decide) (fun l h => absurd h (List.not_mem_nil _))).2⟩

/-- Claim C2, counterexample: for a thick call with one owned by-value
capture and a non-duration-guaranteed closure, the pass inserts the
decrement of the callee value immediately before the apply
(`createDecrementBefore(CalleeValue, &*I)`, line 74), after the
increments — not immediately after the apply as the claim states. -/
theorem c2_counterexample :
    fixupOnBlock [] c2ApplyInst [] 5 [c2Cap] false =
      [Inst.increment 7, Inst.decrement 5, c2ApplyInst] ∧
    [Inst.increment 7, Inst.decrement 5, c2ApplyInst] ≠
      [Inst.increment 7, c2ApplyInst, Inst.decrement 5] := by
  refine ⟨by decide, by decide⟩

/-- Claim C2, amended: when inlining a thick call, exactly one
ownership-increment is inserted immediately before the apply for each
by-value captured argument whose convention is neither
guaranteed-for-duration nor unowned; if the closure is not
duration-guaranteed, exactly one ownership-decrement of the callee value
is inserted, also immediately before the apply, after the increments; a
duration-guaranteed closure gets no decrement.  The apply and everything
after it are unchanged. -/
theorem c2_theorem (pre : List Inst) (i : Inst) (post : List Inst) (t : Nat)
    (caps : List Capture) (g : Bool) :
    fixupOnBlock pre i post t caps g =
      pre ++ (caps.filter shouldRetainCapture).map (fun c => Inst.increment c.valueTag)
        ++ (if g then [] else [Inst.decrement t]) ++ i :: post := by
  unfold fixupOnBlock
  rw [fixupReferenceCounts_eq]

/-- Claim C3, counterexample: for a module of two mutually
must-inline-calling functions the whole pass reports the cycle diagnostic
twice — once for each top-level function from which the cycle is entered —
not exactly once. -/
theorem c3_counterexample :
    runAll envAccept 20 [0, 1] c3Module [] [] =
        some (DriverOut.ok c3Module c3Diags) ∧
    countCirculars c3Diags = 2 ∧ countCirculars c3Diags ≠ 1 := by
  refine ⟨by decide, by decide, by decide⟩

/-- Claim C3, amended: for a module of two mutually must-inline-calling
functions, the whole pass terminates, reports exactly two cycle
diagnostics (one per top-level origination, each followed by a note),
and inlines neither call — the module is returned unchanged. -/
theorem c3_theorem :
    runAll envAccept 20 [0, 1] c3Module [] [] =
        some (DriverOut.ok c3Module c3Diags) ∧
    countCirculars c3Diags = 2 ∧
    bodyOf c3Module 0 = [Inst.applySite c3SiteA] ∧
    bodyOf c3Module 1 = [Inst.applySite c3SiteB] := by
  refine ⟨by decide, by decide, by decide, by decide⟩

/-- Claim C4: whenever recursive processing reaches a function already in
the current inlining set, the diagnostics appended by the failing
top-level activation are exactly one primary circular diagnostic — at the
triggering call site — followed by one note per enclosing call site
(first conjunct, the general shape); and the failure aborts inlining only
for the top-level function that originated the chain, with no rollback:
in the concrete scenario, the failed run on function 0 retains the
already-completed inline of function 2 (body `other 7`) while its call to
the cyclic function 1 stays intact (second conjunct), and the driver
afterwards still processes and inlines into function 3 (third
conjunct). -/
theorem c4_theorem :
    (∀ (env : Env) (fuel : Nat) (M : Module) (F : Nat) (fis : List Nat)
      (diags : List Diag) (M2 : Module) (fis2 : List Nat) (ds2 : List Diag),
      run env fuel (Call.enter M F none fis [] diags) =
          some (PassOut.ok false M2 fis2 ds2) →
      ∃ (l : Nat) (ls : List Nat),
        ds2 = diags ++ Diag.circular l :: ls.map Diag.note) ∧
    run envAccept 20 (Call.enter c4Module 0 none [] [] []) =
      some (PassOut.ok false c4FailModule [2] [Diag.circular 32, Diag.note 31]) ∧
    runAll envAccept 20 [0, 1, 2, 3] c4Module [] [] =
      some (DriverOut.ok c4ModuleAfter
        [Diag.circular 32, Diag.note 31, Diag.circular 32]) := by
  refine ⟨?_, by decide, by decide⟩
  intro env fuel M F fis diags M2 fis2 ds2 h
  exact ((run_diags env fuel).1 M F none fis [] diags false M2 fis2 ds2 h).2 rfl

/-- Claim C4, witness: the general diagnostic-shape conjunct applied to
the concrete failing run on function 0: one circular diagnostic at the
triggering site (location 32), one note at the single enclosing call site
(location 31). -/
theorem c4_witness :
    ∃ (l : Nat) (ls : List Nat),
      [Diag.circular 32, Diag.note 31] = [] ++ Diag.circular l :: ls.map Diag.note :=
  c4_theorem.1 envAccept 20 c4Module 0 [] [] c4FailModule [2]
    [Diag.circular 32, Diag.note 31] (by decide)

/-- Claim C6: when the caller is serialized and the resolved, loadable,
transparent, non-foreign callee lacks linkage valid for fragile inlining,
resolution fails — the call site is left intact and no diagnostic is
emitted (the model's resolver emits none) — if the callee still has valid
reference linkage; otherwise the pass fails fatally and
non-recoverably. -/
theorem c6_theorem (env : Env) (M : Module) (AI : ApplySiteData) (r : Resolution)
    (fn : Fn)
    (hr : resolveShape AI = some r)
    (hf : findFn M r.calleeFn = some fn)
    (hrep : foreignRep fn.attrs.representation = false)
    (htr : fn.attrs.isTransparent = true)
    (hbody : (loadIfEmpty env M r.calleeFn fn).1 ≠ [])
    (hni : fn.attrs.hasValidLinkageForFragileInline = false) :
    getCalleeFunction env M true AI =
      (if fn.attrs.hasValidLinkageForFragileRef then
        ResolveOut.fail (loadIfEmpty env M r.calleeFn fn).2
      else ResolveOut.fatal) := by
  unfold getCalleeFunction
  simp only [hr, hf]
  rw [if_neg (by simp [hrep]), if_neg (by simp [htr]), if_neg hbody,
    if_pos (show True ∧ fn.attrs.hasValidLinkageForFragileInline = false
      from ⟨trivial, hni⟩)]
  cases href : fn.attrs.hasValidLinkageForFragileRef <;> simp [href]

/-- Claim C6, witness: the theorem applied to a concrete serialized-caller
scenario whose callee has valid reference linkage but no
fragile-inlining linkage: resolution fails with the module unchanged. -/
theorem c6_witness :
    resolveShape c6Site = some ⟨1, false, [], none, []⟩ ∧
    getCalleeFunction envAccept c6Module true c6Site = ResolveOut.fail c6Module := by
  constructor
  · decide
  · have h := c6_theorem envAccept c6Module c6Site ⟨1, false, [], none, []⟩
      ⟨c6CalleeAttrs, [Inst.other 1]⟩ (by decide) (by decide) (by decide)
      (by decide) (by decide) (by decide)
    rw [h]
    decide

/-- Claim C7, counterexample: a transparent Objective-C method with zero
remaining uses and no external visibility is kept by the cleanup loop,
although it satisfies all removal conditions the claim states. -/
theorem c7_counterexample :
    cleanupDeadTransparent true [(0, c7ObjCFn)] = [(0, c7ObjCFn)] ∧
    c7ObjCFn.attrs.refCount = 0 ∧
    c7ObjCFn.attrs.isTransparent = true ∧
    c7ObjCFn.attrs.isPossiblyUsedExternally = false := by
  refine ⟨by decide, by decide, by decide, by decide⟩

/-- Claim C7, amended: with cleanup enabled, the final module-wide loop
removes exactly the transparent functions whose remaining use count is
zero, that are not possibly used externally, and whose representation is
not an Objective-C method; every other function remains in the module. -/
theorem c7_theorem (M : Module) (p : Nat × Fn) :
    p ∈ cleanupDeadTransparent true M ↔
      p ∈ M ∧ ¬(p.2.attrs.refCount = 0 ∧ p.2.attrs.isTransparent = true ∧
        p.2.attrs.isPossiblyUsedExternally = false ∧
        ¬p.2.attrs.representation = Representation.objcMethod) := by
  show p ∈ List.filter _ M ↔ _
  rw [List.mem_filter]
  refine and_congr_right (fun _ => ?_)
  by_cases h1 : p.2.attrs.refCount = 0 <;>
    cases h2 : p.2.attrs.isTransparent <;>
      cases h3 : p.2.attrs.isPossiblyUsedExternally <;>
        by_cases h4 : p.2.attrs.representation = Representation.objcMethod <;>
          simp [shouldEraseFunction, h1, h2, h3, h4]

/-- Claim C8: callee resolution never mutates the caller: on every
non-fatal outcome (success and every failure path alike) all function
attributes are unchanged, the only possible body change is filling the
empty body of a function with the loader's result (the best-effort load of
an empty callee), and in particular any function containing the apply site
— the caller — has its body, hence the apply site and its operand chain,
unchanged. -/
theorem c8_theorem (env : Env) (M : Module) (cs : Bool) (AI : ApplySiteData)
    (M2 : Module) (h : (getCalleeFunction env M cs AI).mod = some M2) :
    (∀ g, attrsOf M2 g = attrsOf M g) ∧
    (∀ g, bodyOf M2 g ≠ bodyOf M g →
      bodyOf M g = [] ∧ bodyOf M2 g = (env.loadBody g).getD []) ∧
    (∀ F, Inst.applySite AI ∈ bodyOf M F → bodyOf M2 F = bodyOf M F) := by
  refine ⟨(getCalleeFunction_evolves env M cs AI M2 h).1,
    getCalleeFunction_frame env M cs AI M2 h, ?_⟩
  intro F hmem
  by_contra hne
  obtain ⟨hemp, -⟩ := getCalleeFunction_frame env M cs AI M2 h F hne
  rw [hemp] at hmem
  cases hmem

/-- Claim C8, witness: the theorem applied to the concrete one-call module
(resolution succeeds there and the module is returned unchanged). -/
theorem c8_witness :
    (getCalleeFunction envAccept c1Module false c1Site).mod = some c1Module ∧
    bodyOf c1Module 0 = bodyOf c1Module 0 :=
  ⟨by decide,
    (c8_theorem envAccept c1Module false c1Site c1Module (by decide)).2.2 0
      (by decide)⟩

/-- Claim C9, counterexample: the top-level loop skips the thunk function
1, yet after the per-function loop its body has been modified — function
0's processing resolved the transparent thunk as a callee and recursively
inlined function 2 into it. -/
theorem c9_counterexample :
    runAll envAccept 20 [0, 1, 2] c9Module [] [] =
        some (DriverOut.ok c9ModuleAfter []) ∧
    (attrsOf c9Module 1).map (fun a => a.isThunk) = some true ∧
    bodyOf c9ModuleAfter 1 ≠ bodyOf c9Module 1 := by
  refine ⟨by decide, by decide, by decide⟩

/-- Claim C9, amended: the top-level loop never directly processes a thunk
or deserialized-canonical function, and any such function that is
additionally non-transparent — and hence can never be resolved as a
must-inline callee — has its body left completely unmodified by the
per-function processing loop.  A transparent thunk can still be modified
when a processed function resolves it as a callee. -/
theorem c9_theorem (env : Env) (fuel : Nat) (names : List Nat) (M : Module)
    (fis : List Nat) (diags : List Diag) (M2 : Module) (ds2 : List Diag)
    (g : Nat) (a : FnAttrs)
    (ha : attrsOf M g = some a)
    (hnt : a.isTransparent = false)
    (htd : a.isThunk = true ∨ a.wasDeserializedCanonical = true)
    (h : runAll env fuel names M fis diags = some (DriverOut.ok M2 ds2)) :
    bodyOf M2 g = bodyOf M g :=
  runAll_protected env fuel names M fis diags M2 ds2 h g ⟨a, ha, hnt, htd⟩

/-- Claim C9, witness: the amended theorem applied to a module holding one
non-transparent thunk, whose body the loop leaves unchanged. -/
theorem c9_witness :
    runAll envAccept 5 [0] c9WitnessModule [] [] =
        some (DriverOut.ok c9WitnessModule []) ∧
    bodyOf c9WitnessModule 0 = bodyOf c9WitnessModule 0 :=
  ⟨by decide,
    c9_theorem envAccept 5 [0] c9WitnessModule [] [] c9WitnessModule [] 0
      c9WitnessAttrs (by decide) (by decide) (Or.inl (by decide)) (by decide)⟩

end MandatoryInlining

namespace BoxModel

/-- Claim C10: boxed-callee cleanup is not atomic.  Under the shape the
source `cast`s demand (a load from a project_box of an alloc_box): if the
load still has uses, nothing at all is changed (first conjunct); if the
load is use-free it is erased first, and only then are the alloc_box and
project_box uses validated, so when either validation fails (an unexpected
box use, or an unexpected project-box use) the cleanup returns having
deleted only the load, leaving the rest of the chain in place (second
conjunct). -/
theorem c10_theorem (blocks : Blocks) (li : BInst) (freshId addr box : Nat)
    (pbi abi : BInst)
    (hli : li.kind = BKind.loadInst addr)
    (hdpbi : defOf blocks addr = some pbi)
    (hpbi : pbi.kind = BKind.projectBox box)
    (hdabi : defOf blocks box = some abi)
    (habi : abi.kind = BKind.allocBox) :
    (usesOf blocks li.id ≠ [] →
      cleanupLoadedCalleeValue blocks li freshId = (none, blocks)) ∧
    (usesOf blocks li.id = [] →
      (findBoxRelease pbi.id (usesOf (eraseInst blocks li.id) abi.id) none = none ∨
        findBoxStore (usesOf (eraseInst blocks li.id) pbi.id) none = none) →
      cleanupLoadedCalleeValue blocks li freshId = (none, eraseInst blocks li.id)) := by
  constructor
  · intro huse
    unfold cleanupLoadedCalleeValue
    simp only [hli, hdpbi, hpbi, hdabi, habi]
    rw [if_pos]
    cases hu : usesOf blocks li.id with
    | nil => exact absurd hu huse
    | cons a l => simp [hu]
  · intro huse hbad
    unfold cleanupLoadedCalleeValue
    simp only [hli, hdpbi, hpbi, hdabi, habi]
    rw [if_neg (by simp [huse])]
    rcases hbad with hbad | hbad
    · simp only [hbad]
    · cases hrel : findBoxRelease pbi.id (usesOf (eraseInst blocks li.id) abi.id) none
        with
      | none => simp only [hrel]
      | some sri => simp only [hrel, hbad]

/-- Claim C10, witness: in the concrete one-block box pattern the load (5)
is use-free but the strong_retain of the alloc_box (4) is an unexpected
use for the cleanup, so exactly the load is deleted. -/
theorem c10_witness :
    usesOf c10Blocks c10Load.id = [] ∧
    cleanupLoadedCalleeValue c10Blocks c10Load 99 =
      (none, eraseInst c10Blocks c10Load.id) :=
  ⟨by decide,
    (c10_theorem c10Blocks c10Load 99 2 1 ⟨2, BKind.projectBox 1⟩
      ⟨1, BKind.allocBox⟩ (by decide) (by decide) (by decide) (by decide)
      (by decide)).2 (by decide) (Or.inl (by decide))⟩

end BoxModel

namespace BoxModel

theorem scanForStore_endOfBlock (liId pbiId : Nat) :
    ∀ (l : List BInst) (init out : Option BInst),
    (∀ z, l.getLast? = some z → isStoreKind z.kind = false) →
    scanForStore liId pbiId l init = ScanResult.endOfBlock out →
    out = none ∨ (l = [] ∧ out = init) := by
  intro l
  induction l with
  | nil =>
    intro init out hlast h
    simp only [scanForStore, ScanResult.endOfBlock.injEq] at h
    exact Or.inr ⟨rfl, h.symm⟩
  | cons i rest ih =>
    intro init out hlast h
    simp only [scanForStore] at h
    split at h
    · exact absurd h (by simp)
    · split at h
      · next src dest hkind =>
        split at h
        · exact absurd h (by simp)
        · next hdne =>
          cases rest with
          | nil =>
            have hl : (i :: ([] : List BInst)).getLast? = some i := by
              simp [List.getLast?]
            have := hlast i hl
            rw [hkind] at this
            simp [isStoreKind] at this
          | cons r1 rs =>
            have hlast2 : ∀ z, (r1 :: rs).getLast? = some z →
                isStoreKind z.kind = false := by
              intro z hz
              exact hlast z (by rw [List.getLast?_cons_cons]; exact hz)
            rcases ih (some i) out hlast2 h with h1 | ⟨h1, -⟩
            · exact Or.inl h1
            · cases h1
      · next hnotstore =>
        cases rest with
        | nil =>
          simp only [scanForStore, ScanResult.endOfBlock.injEq] at h
          exact Or.inl h.symm
        | cons r1 rs =>
          have hlast2 : ∀ z, (r1 :: rs).getLast? = some z →
              isStoreKind z.kind = false := by
            intro z hz
            exact hlast z (by rw [List.getLast?_cons_cons]; exact hz)
          rcases ih none out hlast2 h with h1 | ⟨-, h1⟩
          · exact Or.inl h1
          · exact Or.inl h1

end BoxModel

namespace BoxModel

theorem scanForStore_found_iff (liId pbiId : Nat) :
    ∀ (l : List BInst) (init : Option BInst) (si : BInst),
    scanForStore liId pbiId l init = ScanResult.found si ↔
      ∃ l1 l2, l = l1 ++ si :: l2 ∧
        (∃ src, si.kind = BKind.storeInst src pbiId) ∧
        si.id ≠ liId ∧
        (∀ i ∈ l1, i.id ≠ liId ∧ ∀ s d, i.kind = BKind.storeInst s d → d ≠ pbiId) := by
  intro l
  induction l with
  | nil =>
    intro init si
    constructor
    · intro h; exact absurd h (by simp [scanForStore])
    · rintro ⟨l1, l2, hdec, -⟩
      exact absurd hdec (by simp)
  | cons i rest ih =>
    intro init si
    constructor
    · intro h
      simp only [scanForStore] at h
      split at h
      · exact absurd h (by simp)
      · next hid =>
        split at h
        · next src dest hkind =>
          split at h
          · next hdest =>
            simp only [ScanResult.found.injEq] at h
            subst h
            refine ⟨[], rest, rfl, ⟨src, by rw [hkind, hdest]⟩, hid, ?_⟩
            intro x hx; cases hx
          · next hdest =>
            obtain ⟨l1, l2, hdec, hsi, hsid, hl1⟩ := (ih (some i) si).mp h
            refine ⟨i :: l1, l2, by rw [hdec, List.cons_append], hsi, hsid, ?_⟩
            intro x hx
            rcases List.mem_cons.mp hx with hx | hx
            · subst hx
              refine ⟨hid, ?_⟩
              intro s d hk
              rw [hkind] at hk
              cases hk
              exact hdest
            · exact hl1 x hx
        · next hnot =>
          obtain ⟨l1, l2, hdec, hsi, hsid, hl1⟩ := (ih none si).mp h
          refine ⟨i :: l1, l2, by rw [hdec, List.cons_append], hsi, hsid, ?_⟩
          intro x hx
          rcases List.mem_cons.mp hx with hx | hx
          · subst hx
            exact ⟨hid, fun s d hk => (hnot s d hk).elim⟩
          · exact hl1 x hx
    · rintro ⟨l1, l2, hdec, ⟨src, hsi⟩, hsid, hl1⟩
      cases l1 with
      | nil =>
        simp only [List.nil_append] at hdec
        injection hdec with h1 h2
        subst h1
        subst h2
        simp only [scanForStore]
        rw [if_neg hsid]
        simp only [hsi]
        simp
      | cons x l1r =>
        simp only [List.cons_append] at hdec
        injection hdec with h1 h2
        subst h1
        subst h2
        have hx := hl1 i (List.mem_cons_self i l1r)
        simp only [scanForStore]
        rw [if_neg hx.1]
        have hrest : scanForStore liId pbiId (l1r ++ si :: l2) (some i) =
              ScanResult.found si ∧
            scanForStore liId pbiId (l1r ++ si :: l2) none = ScanResult.found si := by
          constructor
          · exact (ih (some i) si).mpr ⟨l1r, l2, rfl, ⟨src, hsi⟩, hsid,
              fun y hy => hl1 y (List.mem_cons_of_mem i hy)⟩
          · exact (ih none si).mpr ⟨l1r, l2, rfl, ⟨src, hsi⟩, hsid,
              fun y hy => hl1 y (List.mem_cons_of_mem i hy)⟩
        cases hxk : i.kind with
        | storeInst s d =>
          have hd : d ≠ pbiId := hx.2 s d hxk
          show (if d = pbiId then ScanResult.found i
            else scanForStore liId pbiId (l1r ++ si :: l2) (some i)) =
            ScanResult.found si
          rw [if_neg hd]
          exact hrest.1
        | allocBox => exact hrest.2
        | projectBox b => exact hrest.2
        | strongRetain v => exact hrest.2
        | strongRelease v => exact hrest.2
        | loadInst a => exact hrest.2
        | term => exact hrest.2
        | other ops => exact hrest.2

end BoxModel

namespace BoxModel

theorem suffixFrom_getLast_not_store (blocks : Blocks) (instId : Nat)
    (hterm : ∀ bl ∈ blocks, ∀ z, bl.getLast? = some z → z.kind = BKind.term) :
    ∀ z, (suffixFrom (blockOf blocks instId) instId).getLast? = some z →
      isStoreKind z.kind = false := by
  intro z hz
  have hsne : suffixFrom (blockOf blocks instId) instId ≠ [] := by
    intro h0; rw [h0] at hz; cases hz
  cases hfb : blocks.find? (fun b => b.any (fun i => i.id = instId)) with
  | none =>
    exfalso
    apply hsne
    simp [suffixFrom, blockOf, hfb]
  | some bl =>
    have hmem : bl ∈ blocks := List.mem_of_find?_eq_some hfb
    have hblockOf : blockOf blocks instId = bl := by simp [blockOf, hfb]
    rw [hblockOf] at hz hsne
    simp only [suffixFrom] at hz hsne
    have hlast : bl.getLast? = some z := by
      conv_lhs =>
        rw [← List.takeWhile_append_dropWhile (fun i => !(i.id = instId)) bl]
      rw [List.getLast?_append_of_ne_nil _ hsne]
      exact hz
    rw [hterm bl hmem z hlast]
    rfl

end BoxModel

namespace BoxModel

/-- Claim C5: in a body whose blocks all end with a terminator, boxed
callee resolution succeeds exactly when the load reads a project_box of an
alloc_box, the alloc_box has no uses beyond the project_box and
retains/releases, the alloc_box's block contains — after the alloc_box and
before any occurrence of the load — a store whose destination is the
project_box, the project_box has no uses beyond that store and loads
(hence exactly one store), and the resolved callee value is that store's
source.  Any other shape (no store found, extra box uses, extra
project-box uses, the load preceding the store) makes resolution fail. -/
theorem c5_theorem (blocks : Blocks) (li : BInst) (addr v : Nat)
    (hli : li.kind = BKind.loadInst addr)
    (hterm : ∀ bl ∈ blocks, ∀ z, bl.getLast? = some z → z.kind = BKind.term) :
    resolveLoadedCallee blocks li = some v ↔
      ∃ pbi box abi si src l1 l2,
        defOf blocks addr = some pbi ∧ pbi.kind = BKind.projectBox box ∧
        defOf blocks box = some abi ∧ abi.kind = BKind.allocBox ∧
        (∀ u ∈ usesOf blocks abi.id, u.id = pbi.id ∨ isRetainOrRelease u.kind = true) ∧
        suffixFrom (blockOf blocks abi.id) abi.id = l1 ++ si :: l2 ∧
        si.kind = BKind.storeInst src pbi.id ∧ si.id ≠ li.id ∧
        (∀ i ∈ l1, i.id ≠ li.id ∧ ∀ s d, i.kind = BKind.storeInst s d → d ≠ pbi.id) ∧
        (∀ u ∈ usesOf blocks pbi.id, u.id = si.id ∨ isLoadKind u.kind = true) ∧
        v = src := by
  unfold resolveLoadedCallee
  simp only [hli]
  constructor
  · intro h
    split at h
    · next pbi hdpbi =>
      split at h
      · next box hpk =>
        split at h
        · next abi hdabi =>
          split at h
          · next habk =>
            split at h
            · next hall =>
              split at h
              · next si hscan =>
                split at h
                · next hpall =>
                  obtain ⟨l1, l2, hdec, ⟨src, hsik⟩, hsid, hl1⟩ :=
                    (scanForStore_found_iff li.id pbi.id _ none si).mp hscan
                  have hv : v = src := by
                    simp only [storeSrc, hsik, Option.some.injEq] at h
                    exact h.symm
                  refine ⟨pbi, box, abi, si, src, l1, l2, hdpbi, hpk, hdabi, habk,
                    ?_, hdec, hsik, hsid, hl1, ?_, hv⟩
                  · intro u hu
                    have hu2 := List.all_eq_true.mp hall u hu
                    simpa using hu2
                  · intro u hu
                    have hu2 := List.all_eq_true.mp hpall u hu
                    simpa using hu2
                · cases h
              · cases h
              · next osi hscan =>
                exfalso
                have hns := suffixFrom_getLast_not_store blocks abi.id hterm
                rcases scanForStore_endOfBlock li.id pbi.id _ none (some osi)
                    hns hscan with h0 | ⟨-, h0⟩ <;> cases h0
              · cases h
            · cases h
          · cases h
        · cases h
      · cases h
    · cases h
  · rintro ⟨pbi, box, abi, si, src, l1, l2, hdpbi, hpk, hdabi, habk, hall,
      hdec, hsik, hsid, hl1, hpall, hv⟩
    simp only [hdpbi, hpk, hdabi, habk]
    rw [if_pos (by
      rw [List.all_eq_true]
      intro u hu
      have := hall u hu
      simpa using this)]
    have hscan : scanForStore li.id pbi.id
        (suffixFrom (blockOf blocks abi.id) abi.id) none = ScanResult.found si :=
      (scanForStore_found_iff li.id pbi.id _ none si).mpr
        ⟨l1, l2, hdec, ⟨src, hsik⟩, hsid, hl1⟩
    simp only [hscan]
    rw [if_pos (by
      rw [List.all_eq_true]
      intro u hu
      have := hpall u hu
      simpa using this)]
    simp only [storeSrc, hsik, hv]

end BoxModel

namespace BoxModel

/-- Claim C5, witness: the characterization applied to the concrete box
pattern `c5Blocks`, resolving the loaded callee to the stored value 9. -/
theorem c5_witness :
    c5Load.kind = BKind.loadInst 2 ∧
    resolveLoadedCallee c5Blocks c5Load = some 9 :=
  ⟨by decide,
    (c5_theorem c5Blocks c5Load 2 9 (by decide)
      (by
        intro bl hbl z hz
        simp only [c5Blocks, List.mem_cons, List.not_mem_nil, or_false] at hbl
        subst hbl
        have h6 : ([⟨1, BKind.allocBox⟩, ⟨2, BKind.projectBox 1⟩,
            ⟨3, BKind.storeInst 9 2⟩, ⟨4, BKind.strongRetain 1⟩,
            ⟨5, BKind.loadInst 2⟩, ⟨6, BKind.term⟩] : List BInst).getLast? =
            some ⟨6, BKind.term⟩ := by decide
        rw [h6] at hz
        cases hz
        rfl)).mpr
      ⟨⟨2, BKind.projectBox 1⟩, 1, ⟨1, BKind.allocBox⟩, ⟨3, BKind.storeInst 9 2⟩, 9,
        [⟨1, BKind.allocBox⟩, ⟨2, BKind.projectBox 1⟩],
        [⟨4, BKind.strongRetain 1⟩, ⟨5, BKind.loadInst 2⟩, ⟨6, BKind.term⟩],
        by decide, by decide, by decide, by decide, by decide, by decide,
        by decide, by decide,
        (by
          intro i hi
          rcases List.mem_cons.mp hi with h | h
          · subst h
            exact ⟨by decide, by intro s d hk; cases hk⟩
          · rcases List.mem_cons.mp h with h2 | h2
            · subst h2
              exact ⟨by decide, by intro s d hk; cases hk⟩
            · cases h2),
        by decide, by decide⟩⟩

end BoxModel
